import Mathlib

/-!
# Verification of the Match--Metrics event engine

Shallow embedding of the data-processing core of `src/streamlit.py`:
the column normalizer and flag deriver (`clean_and_process`), the spray
code to coordinate transform (`parse_xy`), and the per-player metrics
aggregator (the statistics block of the main script).

Cells of a pandas table are modelled by the inductive type `Cell`:
`na` is a float NaN (the missing marker pandas uses when reading CSV
files), `null` is the Python `None` object stored in an object column,
`s v` a string, `num k` an integer number (numeric cells of the modelled
data are integral pitch-location codes), `b v` a boolean.  Python string
conversion (`str(x)` / `.astype(str)`) is `cellToStr`, which renders
`NaN` as "nan" and `None` as "None" exactly as pandas does.  Machine
floats of the coordinate transform are idealised as real numbers.
-/

namespace MatchMetrics

/-- A cell of a pandas table: NaN, Python None, a string, an integral
number, or a boolean. -/
inductive Cell where
  | na : Cell
  | null : Cell
  | s : String → Cell
  | num : Int → Cell
  | b : Bool → Cell
deriving DecidableEq, Repr

/-- Boolean prefix test on character lists (Python substring search helper). -/
def startsWithL : List Char → List Char → Bool
  | [], _ => true
  | _ :: _, [] => false
  | a :: as, c :: cs => a = c && startsWithL as cs

/-- Boolean substring-occurrence test on character lists; `containsL n h`
is true iff `n` occurs contiguously inside `h`, the semantics of the
Python expression `n in h` on strings. -/
def containsL : List Char → List Char → Bool
  | n, [] => n.isEmpty
  | n, c :: cs => startsWithL n (c :: cs) || containsL n cs

/-- Python `needle in hay` on strings. -/
def strContains (hay needle : String) : Bool :=
  containsL needle.toList hay.toList

/-- Leading and trailing whitespace removal on a character list. -/
def stripL (l : List Char) : List Char :=
  ((l.dropWhile Char.isWhitespace).reverse.dropWhile Char.isWhitespace).reverse

/-- Python `str.strip()` (leading and trailing whitespace removed). -/
def strStrip (v : String) : String :=
  ⟨stripL v.toList⟩

/-- Decimal digit character. -/
def digCh : Nat → Char
  | 0 => '0'
  | 1 => '1'
  | 2 => '2'
  | 3 => '3'
  | 4 => '4'
  | 5 => '5'
  | 6 => '6'
  | 7 => '7'
  | 8 => '8'
  | _ => '9'

/-- Decimal digit characters of a natural number, most significant
first; structural recursion on a fuel bound so that the kernel can
evaluate it. -/
def natCharsF : Nat → Nat → List Char
  | 0, _ => []
  | fuel + 1, n => if n < 10 then [digCh n] else natCharsF fuel (n / 10) ++ [digCh (n % 10)]

/-- Decimal digit characters of a natural number, most significant first. -/
def natChars (n : Nat) : List Char := natCharsF (n + 1) n

/-- Python `str()` of an integer. -/
def intStr (k : Int) : String :=
  if k < 0 then ⟨'-' :: natChars k.natAbs⟩ else ⟨natChars k.natAbs⟩

/-- Python `str(x)` / pandas `.astype(str)` on a cell: NaN renders as
"nan", None as "None", booleans as "True"/"False". -/
def cellToStr : Cell → String
  | Cell.na => "nan"
  | Cell.null => "None"
  | Cell.s v => v
  | Cell.num k => intStr k
  | Cell.b true => "True"
  | Cell.b false => "False"

/-- One step of the string-column pass of `clean_and_process`
(lines 87-88): `df[col] = df[col].astype(str).str.strip()` followed by
`df.loc[df[col] == 'nan', col] = None`.  Every cell becomes a stripped
string, and the literal marker "nan" is put back to the absent value. -/
def stripNorm (c : Cell) : Cell :=
  let t := strStrip (cellToStr c)
  if t = "nan" then Cell.null else Cell.s t

/-- pandas `pd.notna` on a cell (NaN and None count as missing). -/
def cellNotna : Cell → Bool
  | Cell.na => false
  | Cell.null => false
  | _ => true

/-- Integer-string parser modelling `pd.to_numeric(·, errors='coerce')`
on the integral location codes of the data (an optional sign followed by
decimal digits). -/
def parseIntStr (v : String) : Option Int :=
  match v.toList with
  | [] => none
  | '-' :: ds =>
    if ds ≠ [] ∧ ds.all Char.isDigit then
      some (-(ds.foldl (fun a c => a * 10 + (c.toNat - 48)) 0 : Nat))
    else none
  | ds =>
    if ds.all Char.isDigit then
      some ((ds.foldl (fun a c => a * 10 + (c.toNat - 48)) 0 : Nat))
    else none

/-- `pd.to_numeric(·, errors='coerce')` on a cell (line 91). -/
def toNumericCell : Cell → Cell
  | Cell.na => Cell.na
  | Cell.null => Cell.na
  | Cell.num k => Cell.num k
  | Cell.b bv => Cell.num (if bv then 1 else 0)
  | Cell.s v => match parseIntStr v with
    | some k => Cell.num k
    | none => Cell.na

/-- `df['PitchLocation'].isin(range(1, 10))` applied to one cell
(line 95): true iff the coerced location is a number in 1..9. -/
def isZoneCell : Cell → Bool
  | Cell.num k => decide (1 ≤ k ∧ k ≤ 9)
  | _ => false

/-- `check_swing` (lines 98-100): a string containing one of the
swinging-miss, foul or ball-in-play keywords. -/
def check_swing : Cell → Bool
  | Cell.s v => strContains v "空振" || strContains v "ファール" || strContains v "インプレー"
  | _ => false

/-- `check_contact` (lines 103-105): a string containing the foul or
ball-in-play keyword. -/
def check_contact : Cell → Bool
  | Cell.s v => strContains v "ファール" || strContains v "インプレー"
  | _ => false

/-- The miss flag `lambda x: '空振' in str(x)` (line 109). -/
def is_miss (c : Cell) : Bool :=
  strContains (cellToStr c) "空振"

/-! ## Spray coordinate transform (`parse_xy`, lines 112-139)

The deterministic part (code validation, direction-letter lookup, digit
extraction, rank lookup) is `sprayBase`; the jittered trigonometric part
is `parse_xy_real` below, with the two draws of `random.uniform` passed
as explicit parameters. -/

/-- `rank_to_dist` (line 113). -/
def rank_to_dist : Nat → Option ℚ
  | 1 => some 10
  | 2 => some 65
  | 3 => some 110
  | 4 => some 155
  | 5 => some 195
  | 6 => some 240
  | 7 => some 290
  | _ => none

/-- `dir_to_angle` (lines 114-119), angles in degrees. -/
def dir_to_angle : Char → Option ℚ
  | 'B' => some (-46.5)
  | 'C' => some (-42.2)
  | 'D' => some (-38)
  | 'E' => some (-34.2)
  | 'F' => some (-30)
  | 'G' => some (-26)
  | 'H' => some (-22.15)
  | 'I' => some (-18)
  | 'J' => some (-14)
  | 'K' => some (-10)
  | 'L' => some (-6)
  | 'M' => some (-2.5)
  | 'N' => some 1.5
  | 'O' => some 5.5
  | 'P' => some 9.5
  | 'Q' => some 13.5
  | 'R' => some 17.5
  | 'S' => some 21.5
  | 'T' => some 25.5
  | 'U' => some 29.5
  | 'V' => some 33.5
  | 'W' => some 37.5
  | 'X' => some 41.5
  | 'Y' => some 45.5
  | _ => none

/-- `memo.replace(" ", "").upper()` (line 125), as a character list. -/
def normalizeMemo (m : String) : List Char :=
  (m.toList.filter (fun c => c ≠ ' ')).map Char.toUpper

/-- Numeric value of a digit string, as computed by Python `int` on the
joined digit characters (line 130). -/
def digitsVal (l : List Char) : Nat :=
  l.foldl (fun a c => a * 10 + (c.toNat - 48)) 0

/-- The distance rank `parse_xy` extracts (lines 121-130): `None` unless
the memo is a string of length at least 2; after removing spaces and
uppercasing, the digits occurring after the first character are joined
(`"".join([c for c in memo[1:] if c.isdigit()])`) and read as a number;
no digits (or no first character left) gives `None`. -/
def sprayRank (c : Cell) : Option Nat :=
  match c with
  | Cell.s m =>
    if m.toList.length < 2 then none
    else
      match normalizeMemo m with
      | [] => none
      | _ :: rest =>
        let ds := rest.filter Char.isDigit
        if ds.isEmpty then none else some (digitsVal ds)
  | _ => none

/-- The direction letter `parse_xy` uses (`memo[0]` after normalization,
line 126), subject to the same validity checks. -/
def sprayDir (c : Cell) : Option Char :=
  match c with
  | Cell.s m =>
    if m.toList.length < 2 then none
    else
      match normalizeMemo m with
      | [] => none
      | d :: _ => some d
  | _ => none

/-- Base angle (degrees) and base distance selected by `parse_xy`
(lines 126-133); `none` exactly when the code falls through to
`pd.Series([None, None])`. -/
def sprayBase (c : Cell) : Option (ℚ × ℚ) :=
  match sprayDir c, sprayRank c with
  | some d, some r =>
    match dir_to_angle d, rank_to_dist r with
    | some a, some dist => some (a, dist)
    | _, _ => none
  | _, _ => none

/-- Modelled from the spec (claim C3's wording, for comparison with the
source's `sprayRank`): the maximal leading run of decimal digits of the
characters following the direction letter, after whitespace removal and
uppercasing. -/
def specLeadingRank (c : Cell) : Option Nat :=
  match c with
  | Cell.s m =>
    if m.toList.length < 2 then none
    else
      match normalizeMemo m with
      | [] => none
      | _ :: rest =>
        let ds := rest.takeWhile Char.isDigit
        if ds.isEmpty then none else some (digitsVal ds)
  | _ => none

/-- Python `round(x, 2)`, idealised over the reals with round-half-up
ties (ties are attained on a measure-zero set of jitter draws and play
no role in the claims). -/
noncomputable def round2 (x : ℝ) : ℝ :=
  (⌊x * 100 + 1 / 2⌋ : ℤ) / 100

/-- `parse_xy` (lines 112-139) with the two `random.uniform` draws made
explicit: `ja` is the angle offset drawn from `uniform(-0.05, 0.05)` and
`jd` the distance factor drawn from `uniform(0.9, 1.1)` (lines 134-135);
floats are idealised as reals.  Returns the pair written into the
`打球X`/`打球Y` columns, or `none` for the `pd.Series([None, None])`
fall-through. -/
noncomputable def parse_xy_real (c : Cell) (ja jd : ℝ) : Option (ℝ × ℝ) :=
  (sprayBase c).map fun p =>
    let angle : ℝ := (p.1 : ℝ) + ja
    let dist : ℝ := (p.2 : ℝ) * jd
    let rad : ℝ := angle * Real.pi / 180
    (round2 (dist * 1.2 * Real.sin rad), round2 (dist * 0.8 * Real.cos rad))

/-! ## Table model and `clean_and_process` (lines 73-142)

A table is a list of named, dtype-tagged columns, mirroring a pandas
`DataFrame`.  Only the dtype distinctions the code observes are kept:
`select_dtypes(include=['object'])` picks the `obj` columns, everything
else (`num` for numeric, `boo` for boolean) is skipped by the string
pass.  The jittered coordinate columns `打球X`/`打球Y` are modelled
separately by `parse_xy_real` on the `Memo` column and are not part of
the deterministic table pipeline. -/

/-- pandas column dtype, as far as the code distinguishes them. -/
inductive Dtype where
  | obj : Dtype
  | num : Dtype
  | boo : Dtype
deriving DecidableEq, Repr

/-- A named pandas column. -/
structure Col where
  name : String
  dtype : Dtype
  cells : List Cell
deriving DecidableEq, Repr

/-- A pandas DataFrame: an ordered list of columns. -/
structure Table where
  cols : List Col
deriving DecidableEq, Repr

/-- `df.empty` (true when the frame has no columns or no rows). -/
def Table.isEmptyT (t : Table) : Bool :=
  match t.cols with
  | [] => true
  | c :: _ => c.cells.isEmpty

/-- Number of rows (length of the shared index). -/
def Table.nRows (t : Table) : Nat :=
  match t.cols with
  | [] => 0
  | c :: _ => c.cells.length

/-- Column labels. -/
def Table.names (t : Table) : List String :=
  t.cols.map Col.name

/-- `name in df.columns`. -/
def Table.hasCol (t : Table) (n : String) : Bool :=
  t.cols.any (fun c => c.name = n)

/-- Cells of the column labelled `n` (first match), `[]` if absent. -/
def Table.getCells (t : Table) (n : String) : List Cell :=
  match t.cols.find? (fun c => c.name = n) with
  | some c => c.cells
  | none => []

/-- Well-formed frame: all columns share the index length and the
stripped labels are distinct (the code addresses columns by label and
relies on unique labels). -/
def Table.WF (t : Table) : Prop :=
  (∀ c ∈ t.cols, c.cells.length = t.nRows) ∧
    (t.cols.map (fun c => strStrip c.name)).Nodup

/-- `df.columns = df.columns.str.strip()` (line 77). -/
def stripNames (t : Table) : Table :=
  ⟨t.cols.map (fun c => ⟨strStrip c.name, c.dtype, c.cells⟩)⟩

/-- The required columns of line 80. -/
def requiredCols : List String :=
  ["PitchLocation", "PitchResult", "HitResult", "KorBB", "Memo", "Batter", "Pitcher"]

/-- Lines 81-82: `if col not in df.columns: df[col] = None` — each
missing required column is appended as an object column of `None`s. -/
def ensureRequired (t : Table) : Table :=
  ⟨t.cols ++ (requiredCols.filter (fun n => ¬ t.hasCol n)).map
    (fun n => ⟨n, Dtype.obj, List.replicate t.nRows Cell.null⟩)⟩

/-- Lines 85-88: every object-dtype column is passed through
`astype(str).str.strip()` with the `'nan'` marker put back to `None`. -/
def stripObjCells (t : Table) : Table :=
  ⟨t.cols.map (fun c =>
    if c.dtype = Dtype.obj then ⟨c.name, Dtype.obj, c.cells.map stripNorm⟩ else c)⟩

/-- `df[n] = f(df[n])` with a dtype change: used for line 91,
`df['PitchLocation'] = pd.to_numeric(df['PitchLocation'], errors='coerce')`. -/
def mapColNamed (t : Table) (n : String) (d : Dtype) (f : Cell → Cell) : Table :=
  ⟨t.cols.map (fun c => if c.name = n then ⟨c.name, d, c.cells.map f⟩ else c)⟩

/-- `df[n] = cells`: overwrite in place when the label exists, else
append a new column. -/
def setCol (t : Table) (n : String) (d : Dtype) (cs : List Cell) : Table :=
  if t.hasCol n then
    ⟨t.cols.map (fun c => if c.name = n then ⟨n, d, cs⟩ else c)⟩
  else ⟨t.cols ++ [⟨n, d, cs⟩]⟩

/-- `df[tgt] = df[src].apply(f)` for a boolean flag. -/
def deriveFlag (t : Table) (src tgt : String) (f : Cell → Bool) : Table :=
  setCol t tgt Dtype.boo ((t.getCells src).map (fun c => Cell.b (f c)))

/-- `clean_and_process` (lines 73-142) without the jittered coordinate
columns: early return of an empty frame, column-name strip, required
column backfill, object-cell normalization, location coercion and the
four derived flags, in source order. -/
def cleanCore (t : Table) : Table :=
  if t.isEmptyT then t
  else
    let t1 := stripNames t
    let t2 := ensureRequired t1
    let t3 := stripObjCells t2
    let t4 := mapColNamed t3 "PitchLocation" Dtype.num toNumericCell
    let t5 := deriveFlag t4 "PitchLocation" "is_Zone" isZoneCell
    let t6 := deriveFlag t5 "PitchResult" "is_Swing" check_swing
    let t7 := deriveFlag t6 "PitchResult" "is_Contact" check_contact
    let t8 := deriveFlag t7 "PitchResult" "is_Miss" is_miss
    t8

/-- `clean_and_process` as the caller observes it: the body mutates the
frame object passed in (`df.columns = ...`, `df[col] = ...`,
`df.loc[...] = ...` all update the caller's object in place) and returns
that same object, so the call yields a pair (returned table, caller's
table after the call). -/
def cleanCall : StateM Table Table := do
  let t ← get
  if t.isEmptyT then
    pure t
  else
    modify stripNames
    modify ensureRequired
    modify stripObjCells
    modify (fun u => mapColNamed u "PitchLocation" Dtype.num toNumericCell)
    modify (fun u => deriveFlag u "PitchLocation" "is_Zone" isZoneCell)
    modify (fun u => deriveFlag u "PitchResult" "is_Swing" check_swing)
    modify (fun u => deriveFlag u "PitchResult" "is_Contact" check_contact)
    modify (fun u => deriveFlag u "PitchResult" "is_Miss" is_miss)
    get

/-- Cell repair map appearing in the idempotence analysis: a second
normalization pass turns an absent (None) object cell into the literal
string "None" and changes nothing else. -/
def nullToNoneStr : Cell → Cell
  | Cell.null => Cell.s "None"
  | c => c

/-- `nullToNoneStr` applied to every object-dtype cell of a frame. -/
def mapObjCells (t : Table) : Table :=
  ⟨t.cols.map (fun c =>
    if c.dtype = Dtype.obj then ⟨c.name, Dtype.obj, c.cells.map nullToNoneStr⟩ else c)⟩

/-! ## Metrics aggregator (lines 179-237)

The statistics block runs on `b_df`, the table filtered to one batter,
already normalized and flagged.  It only reads the columns `SourceFile`,
`KorBB`, `HitResult`, `PitchResult`, `PitchLocation` and the flag
columns; since the flag columns are the cellwise images of
`PitchResult`/`PitchLocation` under the deriver, a row is modelled by
the five underlying cells and the flags are recomputed where read. -/

/-- One row of the batter-filtered table. -/
structure AggRow where
  sourceFile : Cell
  korBB : Cell
  hitResult : Cell
  pitchResult : Cell
  pitchLocation : Cell
deriving DecidableEq, Repr

/-- The plate-appearance row filter of line 186: `KorBB` present, or
`HitResult` present, or `PitchResult` (stringified) containing the
hit-by-pitch keyword. -/
def paPred (r : AggRow) : Bool :=
  cellNotna r.korBB || cellNotna r.hitResult ||
    strContains (cellToStr r.pitchResult) "死球"

/-- `pa` (lines 186-187). -/
def paCount (rows : List AggRow) : Nat := rows.countP paPred

/-- `hits` (line 190): `HitResult.isin(['単打','二塁打','三塁打','本塁打'])`. -/
def hitsCount (rows : List AggRow) : Nat :=
  rows.countP (fun r =>
    r.hitResult = Cell.s "単打" || r.hitResult = Cell.s "二塁打" ||
    r.hitResult = Cell.s "三塁打" || r.hitResult = Cell.s "本塁打")

/-- `bb` (line 193): `KorBB.isin(['四球'])`. -/
def bbCount (rows : List AggRow) : Nat :=
  rows.countP (fun r => r.korBB = Cell.s "四球")

/-- `hbp` (line 194): `PitchResult.astype(str).str.contains('死球')`. -/
def hbpCount (rows : List AggRow) : Nat :=
  rows.countP (fun r => strContains (cellToStr r.pitchResult) "死球")

/-- `so` (line 195): `KorBB.astype(str).str.contains('三振')`. -/
def soCount (rows : List AggRow) : Nat :=
  rows.countP (fun r => strContains (cellToStr r.korBB) "三振")

/-- `sac` (line 198): `HitResult.isin(['犠打','犠飛'])`. -/
def sacCount (rows : List AggRow) : Nat :=
  rows.countP (fun r => r.hitResult = Cell.s "犠打" || r.hitResult = Cell.s "犠飛")

/-- `ab` (line 201): `pa - bb - hbp - sac`, over the integers (Python
ints do not truncate at zero). -/
def abCount (rows : List AggRow) : Int :=
  (paCount rows : Int) - bbCount rows - hbpCount rows - sacCount rows

/-- `total_swings` (line 204). -/
def swingsCount (rows : List AggRow) : Nat :=
  rows.countP (fun r => check_swing r.pitchResult)

/-- `total_contact` (line 205). -/
def contactCount (rows : List AggRow) : Nat :=
  rows.countP (fun r => check_contact r.pitchResult)

/-- `total_misses` (line 206). -/
def missesCount (rows : List AggRow) : Nat :=
  rows.countP (fun r => is_miss r.pitchResult)

/-- `z_df = b_df[b_df['is_Zone']]` (line 209). -/
def zoneRows (rows : List AggRow) : List AggRow :=
  rows.filter (fun r => isZoneCell r.pitchLocation)

/-- `o_df = b_df[~b_df['is_Zone']]` (line 215). -/
def outRows (rows : List AggRow) : List AggRow :=
  rows.filter (fun r => ¬ isZoneCell r.pitchLocation)

/-- `b_df['SourceFile'].nunique()` (line 225): number of distinct
non-missing source identifiers. -/
def gamesCount (rows : List AggRow) : Nat :=
  ((rows.map AggRow.sourceFile).filter cellNotna).dedup.length

/-- `pct` (line 221): `n / d * 100` when `d > 0`, else `0`; total, never
a division error and (over ℚ) never a NaN. -/
def pct (n d : ℚ) : ℚ :=
  if d > 0 then n / d * 100 else 0

/-- Python `f"{v:.1f}"` on the modelled rationals (one decimal place,
sign in front; ties idealised as round-half-up — no theorem below
evaluates the format at a tie). -/
def fmt1 (q : ℚ) : String :=
  let n : Int := round (q * 10)
  (if n < 0 then "-" else "") ++ intStr (n.natAbs / 10) ++ "." ++ intStr (n.natAbs % 10)

/-- Rate formatting `f"{pct(n, d):.1f}%"`. -/
def fmtPct (q : ℚ) : String := fmt1 q ++ "%"

/-- Python `f"{v:.3f}"` (batting average, three decimals). -/
def fmt3 (q : ℚ) : String :=
  let n : Int := round (q * 1000)
  (if n < 0 then "-" else "") ++ intStr (n.natAbs / 1000) ++ "." ++
    intStr (n.natAbs % 1000 / 100) ++ intStr (n.natAbs % 100 / 10) ++ intStr (n.natAbs % 10)

/-- The metrics record of lines 224-237 (keys in source order). -/
structure Stats where
  games : Nat
  pa : Nat
  avg : String
  walkRate : String
  soRate : String
  oSwing : String
  zSwing : String
  swStr : String
  oContact : String
  zContact : String
  contact : String
  kbb : String
deriving DecidableEq, Repr

/-- The statistics block (lines 186-237) as a function of the
batter-filtered rows. -/
def computeStats (rows : List AggRow) : Stats :=
  let pa := paCount rows
  let hits := hitsCount rows
  let bb := bbCount rows
  let hbp := hbpCount rows
  let so := soCount rows
  let sac := sacCount rows
  let ab : Int := (pa : Int) - bb - hbp - sac
  let z := zoneRows rows
  let o := outRows rows
  { games := gamesCount rows
    pa := pa
    avg := if ab > 0 then fmt3 ((hits : ℚ) / (ab : ℚ)) else "-"
    walkRate := fmtPct (pct bb pa)
    soRate := fmtPct (pct so pa)
    oSwing := fmtPct (pct (swingsCount o) o.length)
    zSwing := fmtPct (pct (swingsCount z) z.length)
    swStr := fmtPct (pct (missesCount rows) rows.length)
    oContact := fmtPct (pct (contactCount o) (swingsCount o))
    zContact := fmtPct (pct (contactCount z) (swingsCount z))
    contact := fmtPct (pct (contactCount rows) (swingsCount rows))
    kbb := fmtPct (pct ((so : ℚ) - (bb : ℚ)) pa) }

/-- Cells in the image of the string-normalization pass: absent, or a
stripped string different from the collapsed marker. -/
def InSNRange (x : Cell) : Prop :=
  x = Cell.null ∨ ∃ v, x = Cell.s v ∧ strStrip v = v ∧ v ≠ "nan"

/-- Cells in the image of the numeric coercion: a number or NaN. -/
def InNumRange (x : Cell) : Prop :=
  x = Cell.na ∨ ∃ k, x = Cell.num k

/-- Invariant established by one pass of the normalizer over a nonempty
frame, sufficient for a second pass to act as `mapObjCells`. -/
structure Normalized (u : Table) : Prop where
  nonempty : u.isEmptyT = false
  namesFixed : ∀ c ∈ u.cols, strStrip c.name = c.name
  required : ∀ n ∈ requiredCols, u.hasCol n = true
  objRange : ∀ c ∈ u.cols, c.dtype = Dtype.obj → ∀ x ∈ c.cells, InSNRange x
  plNum : ∀ c ∈ u.cols, c.name = "PitchLocation" →
    c.dtype = Dtype.num ∧ ∀ x ∈ c.cells, InNumRange x
  flagZone : ∀ c ∈ u.cols, c.name = "is_Zone" →
    c.dtype = Dtype.boo ∧
      c.cells = (u.getCells "PitchLocation").map (fun x => Cell.b (isZoneCell x))
  flagSwing : ∀ c ∈ u.cols, c.name = "is_Swing" →
    c.dtype = Dtype.boo ∧
      c.cells = (u.getCells "PitchResult").map (fun x => Cell.b (check_swing x))
  flagContact : ∀ c ∈ u.cols, c.name = "is_Contact" →
    c.dtype = Dtype.boo ∧
      c.cells = (u.getCells "PitchResult").map (fun x => Cell.b (check_contact x))
  flagMiss : ∀ c ∈ u.cols, c.name = "is_Miss" →
    c.dtype = Dtype.boo ∧
      c.cells = (u.getCells "PitchResult").map (fun x => Cell.b (is_miss x))
  hasZone : u.hasCol "is_Zone" = true
  hasSwing : u.hasCol "is_Swing" = true
  hasContact : u.hasCol "is_Contact" = true
  hasMiss : u.hasCol "is_Miss" = true

/-- Modelled from the spec: the spec's Column Normalizer contract (e)
says a `date` column is parsed to a calendar date with unparsable
values mapped to absent; the source has no date handling at all, so a
minimal calendar-date well-formedness check (`YYYY-MM-DD` with month
1..12 and day 1..31) is modelled here from the spec's words only, to
state what the source fails to do. -/
def isParsableDate (v : String) : Bool :=
  match v.toList with
  | [y1, y2, y3, y4, '-', m1, m2, '-', d1, d2] =>
    [y1, y2, y3, y4, m1, m2, d1, d2].all Char.isDigit &&
      (let mm := digitsVal [m1, m2]
       let dd := digitsVal [d1, d2]
       decide (1 ≤ mm) && decide (mm ≤ 12) && decide (1 ≤ dd) && decide (dd ≤ 31))
  | _ => false

/-! ## Helper lemmas -/

theorem dropWhile_idem (p : α → Bool) (l : List α) :
    (l.dropWhile p).dropWhile p = l.dropWhile p := by
  induction l with
  | nil => rfl
  | cons a l ih =>
    by_cases h : p a
    · simpa [List.dropWhile_cons, h] using ih
    · simp [List.dropWhile_cons, h]

theorem dropWhile_tailtrim (p : α → Bool) (l : List α) (h : l.dropWhile p = l) :
    ((l.reverse.dropWhile p).reverse).dropWhile p = (l.reverse.dropWhile p).reverse := by
  cases l with
  | nil => rfl
  | cons a l =>
    have ha : p a = false := by
      by_cases hpa : p a
      · exfalso
        rw [List.dropWhile_cons_of_pos hpa] at h
        have := congrArg List.length h
        simp only [List.length_cons] at this
        have hle := (List.dropWhile_sublist (l := l) p).length_le
        omega
      · simpa using hpa
    rw [List.reverse_cons, List.dropWhile_append]
    split
    · simp [ha]
    · rename_i hne
      rw [List.reverse_append]
      simp only [List.reverse_cons, List.reverse_nil, List.nil_append, List.singleton_append]
      rw [List.dropWhile_cons_of_neg (by simp [ha])]

theorem stripL_idem (l : List Char) : stripL (stripL l) = stripL l := by
  unfold stripL
  have h1 : (l.dropWhile Char.isWhitespace).dropWhile Char.isWhitespace
      = l.dropWhile Char.isWhitespace := dropWhile_idem _ _
  have h2 := dropWhile_tailtrim Char.isWhitespace (l.dropWhile Char.isWhitespace) h1
  rw [h2, List.reverse_reverse, dropWhile_idem]

theorem strStrip_idem (v : String) : strStrip (strStrip v) = strStrip v := by
  unfold strStrip
  exact congrArg String.mk (stripL_idem v.toList)

theorem stripNorm_range (x : Cell) : InSNRange (stripNorm x) := by
  unfold stripNorm InSNRange
  set t := strStrip (cellToStr x) with ht
  by_cases h : t = "nan"
  · simp [h]
  · refine Or.inr ⟨t, by simp [h], ?_, h⟩
    rw [ht]
    exact strStrip_idem _

theorem stripNorm_of_range (x : Cell) (hx : InSNRange x) :
    stripNorm x = nullToNoneStr x := by
  rcases hx with rfl | ⟨v, rfl, hfix, hnan⟩
  · rfl
  · unfold stripNorm nullToNoneStr cellToStr
    simp [hfix, hnan]

theorem toNumericCell_range (x : Cell) : InNumRange (toNumericCell x) := by
  unfold InNumRange toNumericCell
  cases x <;> simp
  split <;> simp

theorem toNumericCell_of_range (x : Cell) (hx : InNumRange x) :
    toNumericCell x = x := by
  rcases hx with rfl | ⟨k, rfl⟩ <;> rfl

theorem check_swing_nullToNoneStr (x : Cell) :
    check_swing (nullToNoneStr x) = check_swing x := by
  cases x <;> rfl

theorem check_contact_nullToNoneStr (x : Cell) :
    check_contact (nullToNoneStr x) = check_contact x := by
  cases x <;> rfl

theorem is_miss_nullToNoneStr (x : Cell) :
    is_miss (nullToNoneStr x) = is_miss x := by
  cases x <;> rfl

theorem startsWithL_subset {n h : List Char} (hs : startsWithL n h = true) :
    ∀ a ∈ n, a ∈ h := by
  induction n generalizing h with
  | nil => simp
  | cons x xs ih =>
    cases h with
    | nil => simp [startsWithL] at hs
    | cons y ys =>
      simp only [startsWithL, Bool.and_eq_true, decide_eq_true_eq] at hs
      intro a ha
      rcases List.mem_cons.mp ha with rfl | ha
      · exact hs.1 ▸ List.mem_cons_self _ _
      · exact List.mem_cons_of_mem _ (ih hs.2 a ha)

theorem containsL_subset {n h : List Char} (hc : containsL n h = true) :
    ∀ a ∈ n, a ∈ h := by
  induction h with
  | nil =>
    simp only [containsL, List.isEmpty_iff] at hc
    subst hc; simp
  | cons c cs ih =>
    simp only [containsL, Bool.or_eq_true] at hc
    rcases hc with hc | hc
    · exact startsWithL_subset hc
    · exact fun a ha => List.mem_cons_of_mem _ (ih hc a ha)

theorem digCh_ascii (m : Nat) : (digCh m).toNat < 128 := by
  unfold digCh
  split <;> decide

theorem natCharsF_ascii (fuel n : Nat) : ∀ a ∈ natCharsF fuel n, a.toNat < 128 := by
  induction fuel generalizing n with
  | zero => simp [natCharsF]
  | succ fuel ih =>
    unfold natCharsF
    split
    · intro a ha
      rcases List.mem_singleton.mp ha with rfl
      exact digCh_ascii _
    · intro a ha
      rcases List.mem_append.mp ha with ha | ha
      · exact ih (n / 10) a ha
      · rcases List.mem_singleton.mp ha with rfl
        exact digCh_ascii _

theorem natChars_ascii (n : Nat) : ∀ a ∈ natChars n, a.toNat < 128 :=
  natCharsF_ascii (n + 1) n

theorem intStr_ascii (k : Int) : ∀ a ∈ (intStr k).toList, a.toNat < 128 := by
  unfold intStr
  split
  · intro a ha
    rcases List.mem_cons.mp ha with rfl | ha
    · decide
    · exact natChars_ascii _ a ha
  · exact natChars_ascii _

theorem strContains_intStr_kw (k : Int) (needle : String) (a : Char)
    (hmem : a ∈ needle.toList) (hwide : 128 ≤ a.toNat) :
    strContains (intStr k) needle = false := by
  by_contra hfx
  have hc : containsL needle.toList (intStr k).toList = true := by
    revert hfx; unfold strContains
    cases containsL needle.toList (intStr k).toList <;> simp
  have := intStr_ascii k a (containsL_subset hc a hmem)
  omega

theorem is_miss_num (k : Int) : is_miss (Cell.num k) = false :=
  strContains_intStr_kw k "空振" '空' (by decide) (by decide)

/-! ### Table-operation lemmas -/

theorem find?_map_of_name_eq (f : Col → Col) (hf : ∀ c, (f c).name = c.name)
    (cols : List Col) (n : String) :
    (cols.map f).find? (fun c => c.name = n) =
      (cols.find? (fun c => c.name = n)).map f := by
  induction cols with
  | nil => rfl
  | cons c cs ih =>
    simp only [List.map_cons, List.find?_cons, hf c]
    by_cases h : c.name = n
    · simp [h]
    · simp only [h, decide_eq_false h]
      exact ih

theorem hasCol_map_of_name_eq (f : Col → Col) (hf : ∀ c, (f c).name = c.name)
    (cols : List Col) (n : String) :
    (Table.mk (cols.map f)).hasCol n = (Table.mk cols).hasCol n := by
  unfold Table.hasCol
  induction cols with
  | nil => rfl
  | cons c cs ih => simp only [List.map_cons, List.any_cons, hf c, ih]

theorem getCells_map_of_name_eq (f : Col → Col) (hf : ∀ c, (f c).name = c.name)
    (cols : List Col) (n : String) :
    (Table.mk (cols.map f)).getCells n =
      (match cols.find? (fun c => c.name = n) with
        | some c => (f c).cells
        | none => []) := by
  unfold Table.getCells
  simp only [find?_map_of_name_eq f hf]
  cases cols.find? (fun c => c.name = n) <;> rfl

theorem find?_append_cols (cols news : List Col) (n : String) :
    (cols ++ news).find? (fun c => c.name = n) =
      (match cols.find? (fun c => c.name = n) with
        | some c => some c
        | none => news.find? (fun c => c.name = n)) := by
  rw [List.find?_append]
  cases cols.find? (fun c => c.name = n) <;> rfl

theorem setCol_name_eq (n : String) (d : Dtype) (cs : List Cell) (c : Col) :
    (if c.name = n then (⟨n, d, cs⟩ : Col) else c).name = c.name := by
  by_cases h : c.name = n <;> simp [h]

theorem mapColNamed_name_eq (n : String) (d : Dtype) (f : Cell → Cell) (c : Col) :
    (if c.name = n then (⟨c.name, d, c.cells.map f⟩ : Col) else c).name = c.name := by
  by_cases h : c.name = n <;> simp [h]

theorem objF_name_eq (c : Col) :
    (if c.dtype = Dtype.obj then (⟨c.name, Dtype.obj, c.cells.map stripNorm⟩ : Col)
      else c).name = c.name := by
  by_cases h : c.dtype = Dtype.obj <;> simp [h]

theorem nnF_name_eq (c : Col) :
    (if c.dtype = Dtype.obj then (⟨c.name, Dtype.obj, c.cells.map nullToNoneStr⟩ : Col)
      else c).name = c.name := by
  by_cases h : c.dtype = Dtype.obj <;> simp [h]

theorem stripNames_of_normalized (u : Table) (hu : Normalized u) :
    stripNames u = u := by
  unfold stripNames
  have hmap : u.cols.map (fun c => (⟨strStrip c.name, c.dtype, c.cells⟩ : Col)) =
      u.cols.map id :=
    List.map_congr_left (fun c hc => by
      have hn := hu.namesFixed c hc
      cases c
      simpa using hn)
  rw [hmap, List.map_id]

theorem ensureRequired_of_normalized (u : Table) (hu : Normalized u) :
    ensureRequired u = u := by
  unfold ensureRequired
  have hfil : requiredCols.filter (fun n => ¬ u.hasCol n) = [] := by
    rw [List.filter_eq_nil_iff]
    intro n hn
    simp [hu.required n hn]
  rw [hfil]
  simp

theorem stripObjCells_of_normalized (u : Table) (hu : Normalized u) :
    stripObjCells u = mapObjCells u := by
  unfold stripObjCells mapObjCells
  refine congrArg Table.mk (List.map_congr_left (fun c hc => ?_))
  by_cases hd : c.dtype = Dtype.obj
  · simp only [hd, if_true]
    refine congrArg _ (List.map_congr_left (fun x hx => ?_))
    exact stripNorm_of_range x (hu.objRange c hc hd x hx)
  · simp [hd]

theorem hasCol_mapObj (u : Table) (n : String) :
    (mapObjCells u).hasCol n = u.hasCol n := by
  unfold mapObjCells
  rw [hasCol_map_of_name_eq _ nnF_name_eq]

theorem getCells_mapObj_pl (u : Table) (hu : Normalized u) :
    (mapObjCells u).getCells "PitchLocation" = u.getCells "PitchLocation" := by
  unfold mapObjCells
  rw [getCells_map_of_name_eq _ nnF_name_eq]
  rcases hfind : u.cols.find? (fun c => c.name = "PitchLocation") with _ | c
  · unfold Table.getCells
    rw [hfind]
  · have hc : c ∈ u.cols := List.mem_of_find?_eq_some hfind
    have hname : c.name = "PitchLocation" := by
      have := List.find?_some hfind
      simpa using this
    have hd := (hu.plNum c hc hname).1
    unfold Table.getCells
    rw [hfind]
    simp [hd]

theorem getCells_mapObj_pr_map (u : Table) (f : Cell → Bool)
    (hf : ∀ x, f (nullToNoneStr x) = f x) :
    ((mapObjCells u).getCells "PitchResult").map (fun x => Cell.b (f x)) =
      (u.getCells "PitchResult").map (fun x => Cell.b (f x)) := by
  unfold mapObjCells
  rw [getCells_map_of_name_eq _ nnF_name_eq]
  rcases hfind : u.cols.find? (fun c => c.name = "PitchResult") with _ | c
  · unfold Table.getCells
    rw [hfind]
  · unfold Table.getCells
    rw [hfind]
    by_cases hd : c.dtype = Dtype.obj
    · simp only [hd, if_true, List.map_map]
      exact List.map_congr_left (fun x _ => by simp [Function.comp, hf x])
    · simp [hd]

theorem mapColNamed_pl_of_normalized (u : Table) (hu : Normalized u) :
    mapColNamed (mapObjCells u) "PitchLocation" Dtype.num toNumericCell =
      mapObjCells u := by
  unfold mapColNamed mapObjCells
  refine congrArg Table.mk ?_
  rw [List.map_map]
  refine List.map_congr_left (fun c hc => ?_)
  simp only [Function.comp]
  by_cases hd : c.dtype = Dtype.obj
  · by_cases hn : c.name = "PitchLocation"
    · have := (hu.plNum c hc hn).1
      rw [hd] at this
      exact absurd this (by simp)
    · simp [hd, hn]
  · simp only [hd, if_false]
    by_cases hn : c.name = "PitchLocation"
    · have hpl := hu.plNum c hc hn
      have hcells : c.cells.map toNumericCell = c.cells := by
        refine (List.map_congr_left (fun x hx => ?_)).trans (List.map_id _)
        exact toNumericCell_of_range x (hpl.2 x hx)
      cases c with
      | mk nm dt cl =>
        simp only at hn hcells hpl
        simp [hn, hpl.1, hcells]
    · simp [hn]

theorem deriveFlag_zone_of_normalized (u : Table) (hu : Normalized u) :
    deriveFlag (mapObjCells u) "PitchLocation" "is_Zone" isZoneCell = mapObjCells u := by
  unfold deriveFlag setCol
  rw [hasCol_mapObj, hu.hasZone, if_pos rfl, getCells_mapObj_pl u hu]
  show Table.mk ((u.cols.map _).map _) = _
  refine congrArg Table.mk ?_
  rw [List.map_map]
  refine List.map_congr_left (fun c hc => ?_)
  simp only [Function.comp, nnF_name_eq]
  by_cases hn : c.name = "is_Zone"
  · have hfl := hu.flagZone c hc hn
    have hobj : ¬ c.dtype = Dtype.obj := by rw [hfl.1]; simp
    simp only [hobj, if_false, hn, if_true]
    cases c with
    | mk nm dt cl =>
      simp only at hn hfl
      simp [hn, hfl.1, hfl.2]
  · simp [hn]

theorem deriveFlag_pr_of_normalized (u : Table) (tgt : String) (f : Cell → Bool)
    (hf : ∀ x, f (nullToNoneStr x) = f x)
    (hflag : ∀ c ∈ u.cols, c.name = tgt → c.dtype = Dtype.boo ∧
      c.cells = (u.getCells "PitchResult").map (fun x => Cell.b (f x)))
    (hhas : u.hasCol tgt = true) :
    deriveFlag (mapObjCells u) "PitchResult" tgt f = mapObjCells u := by
  unfold deriveFlag setCol
  rw [hasCol_mapObj, hhas, if_pos rfl, getCells_mapObj_pr_map u f hf]
  show Table.mk ((u.cols.map _).map _) = _
  refine congrArg Table.mk ?_
  rw [List.map_map]
  refine List.map_congr_left (fun c hc => ?_)
  simp only [Function.comp, nnF_name_eq]
  by_cases hn : c.name = tgt
  · have hfl := hflag c hc hn
    have hobj : ¬ c.dtype = Dtype.obj := by rw [hfl.1]; simp
    simp only [hobj, if_false, hn, if_true]
    cases c with
    | mk nm dt cl =>
      simp only at hn hfl
      simp [hn, hfl.1, hfl.2]
  · simp [hn]

/-- A second pass of the normalizer over a once-normalized table acts
exactly as the absent-to-"None" repair on object cells. -/
theorem cleanCore_of_normalized (u : Table) (hu : Normalized u) :
    cleanCore u = mapObjCells u := by
  unfold cleanCore
  rw [hu.nonempty]
  simp only [Bool.false_eq_true, if_false]
  rw [stripNames_of_normalized u hu, ensureRequired_of_normalized u hu,
    stripObjCells_of_normalized u hu, mapColNamed_pl_of_normalized u hu,
    deriveFlag_zone_of_normalized u hu,
    deriveFlag_pr_of_normalized u "is_Swing" check_swing check_swing_nullToNoneStr
      hu.flagSwing hu.hasSwing,
    deriveFlag_pr_of_normalized u "is_Contact" check_contact check_contact_nullToNoneStr
      hu.flagContact hu.hasContact,
    deriveFlag_pr_of_normalized u "is_Miss" is_miss is_miss_nullToNoneStr
      hu.flagMiss hu.hasMiss]

theorem requiredCols_stripped : ∀ n ∈ requiredCols, strStrip n = n := by decide

theorem flagNames_stripped :
    strStrip "is_Zone" = "is_Zone" ∧ strStrip "is_Swing" = "is_Swing" ∧
    strStrip "is_Contact" = "is_Contact" ∧ strStrip "is_Miss" = "is_Miss" := by decide

theorem hasCol_iff (v : Table) (n : String) :
    v.hasCol n = true ↔ ∃ c ∈ v.cols, c.name = n := by
  unfold Table.hasCol
  simp

theorem hasCol_ensureRequired (v : Table) (n : String) (hn : n ∈ requiredCols) :
    (ensureRequired v).hasCol n = true := by
  rw [hasCol_iff]
  unfold ensureRequired
  by_cases hv : v.hasCol n = true
  · obtain ⟨c, hc, hcn⟩ := (hasCol_iff v n).mp hv
    exact ⟨c, List.mem_append_left _ hc, hcn⟩
  · refine ⟨⟨n, Dtype.obj, List.replicate v.nRows Cell.null⟩,
      List.mem_append_right _ (List.mem_map.mpr ⟨n, List.mem_filter.mpr ⟨hn, ?_⟩, rfl⟩), rfl⟩
    simp [hv]

theorem hasCol_ensureRequired_mono (v : Table) (n : String) (hv : v.hasCol n = true) :
    (ensureRequired v).hasCol n = true := by
  rw [hasCol_iff] at hv ⊢
  obtain ⟨c, hc, hcn⟩ := hv
  exact ⟨c, List.mem_append_left _ hc, hcn⟩

theorem hasCol_setCol_self (v : Table) (n : String) (d : Dtype) (cs : List Cell) :
    (setCol v n d cs).hasCol n = true := by
  unfold setCol
  by_cases hv : v.hasCol n = true
  · rw [if_pos hv]
    obtain ⟨c, hc, hcn⟩ := (hasCol_iff v n).mp hv
    refine (hasCol_iff _ n).mpr
      ⟨if c.name = n then ⟨n, d, cs⟩ else c, List.mem_map.mpr ⟨c, hc, rfl⟩, ?_⟩
    simp [hcn]
  · rw [if_neg hv]
    exact (hasCol_iff _ n).mpr ⟨⟨n, d, cs⟩, List.mem_append_right _ (List.mem_singleton.mpr rfl), rfl⟩

theorem hasCol_setCol_mono (v : Table) (n m : String) (d : Dtype) (cs : List Cell)
    (hv : v.hasCol m = true) : (setCol v n d cs).hasCol m = true := by
  unfold setCol
  obtain ⟨c, hc, hcn⟩ := (hasCol_iff v m).mp hv
  by_cases hvn : v.hasCol n = true
  · rw [if_pos hvn]
    refine (hasCol_iff _ m).mpr
      ⟨if c.name = n then ⟨n, d, cs⟩ else c, List.mem_map.mpr ⟨c, hc, rfl⟩, ?_⟩
    by_cases hcn2 : c.name = n
    · rw [if_pos hcn2]
      rw [hcn2] at hcn
      exact hcn
    · rw [if_neg hcn2]
      exact hcn
  · rw [if_neg hvn]
    exact (hasCol_iff _ m).mpr ⟨c, List.mem_append_left _ hc, hcn⟩

theorem getCells_setCol_other (v : Table) (n m : String) (d : Dtype) (cs : List Cell)
    (hnm : m ≠ n) : (setCol v n d cs).getCells m = v.getCells m := by
  unfold setCol
  by_cases hv : v.hasCol n = true
  · rw [if_pos hv]
    rw [getCells_map_of_name_eq _ (setCol_name_eq n d cs)]
    unfold Table.getCells
    rcases hfind : v.cols.find? (fun c => c.name = m) with _ | c <;> rw [hfind]
    have hcm : c.name = m := by simpa using List.find?_some hfind
    simp [hcm, hnm]
  · rw [if_neg hv]
    unfold Table.getCells
    rw [find?_append_cols]
    rcases hfind : v.cols.find? (fun c => c.name = m) with _ | c <;> rw [hfind]
    simp [Ne.symm hnm]

theorem getCells_deriveFlag_other (v : Table) (src tgt m : String) (f : Cell → Bool)
    (hm : m ≠ tgt) : (deriveFlag v src tgt f).getCells m = v.getCells m :=
  getCells_setCol_other v tgt m Dtype.boo _ hm

theorem mem_stripNames (v : Table) (c : Col) (hc : c ∈ (stripNames v).cols) :
    ∃ c' ∈ v.cols, c = ⟨strStrip c'.name, c'.dtype, c'.cells⟩ := by
  obtain ⟨c', hc', rfl⟩ := List.mem_map.mp hc
  exact ⟨c', hc', rfl⟩

theorem mem_ensureRequired (v : Table) (c : Col) (hc : c ∈ (ensureRequired v).cols) :
    c ∈ v.cols ∨ ∃ m ∈ requiredCols,
      c = ⟨m, Dtype.obj, List.replicate v.nRows Cell.null⟩ := by
  rcases List.mem_append.mp hc with h | h
  · exact Or.inl h
  · obtain ⟨m, hm, rfl⟩ := List.mem_map.mp h
    exact Or.inr ⟨m, (List.mem_filter.mp hm).1, rfl⟩

theorem mem_stripObjCells (v : Table) (c : Col) (hc : c ∈ (stripObjCells v).cols) :
    ∃ c' ∈ v.cols,
      c = if c'.dtype = Dtype.obj then ⟨c'.name, Dtype.obj, c'.cells.map stripNorm⟩
        else c' := by
  obtain ⟨c', hc', rfl⟩ := List.mem_map.mp hc
  exact ⟨c', hc', rfl⟩

theorem mem_mapColNamed (v : Table) (n : String) (d : Dtype) (f : Cell → Cell) (c : Col)
    (hc : c ∈ (mapColNamed v n d f).cols) :
    ∃ c' ∈ v.cols,
      c = if c'.name = n then ⟨c'.name, d, c'.cells.map f⟩ else c' := by
  obtain ⟨c', hc', rfl⟩ := List.mem_map.mp hc
  exact ⟨c', hc', rfl⟩

theorem mem_setCol (v : Table) (n : String) (d : Dtype) (cs : List Cell) (c : Col)
    (hc : c ∈ (setCol v n d cs).cols) :
    (c ∈ v.cols ∧ c.name ≠ n) ∨ c = ⟨n, d, cs⟩ := by
  unfold setCol at hc
  by_cases hv : v.hasCol n = true
  · rw [if_pos hv] at hc
    obtain ⟨c', hc', rfl⟩ := List.mem_map.mp hc
    by_cases hcn : c'.name = n
    · rw [if_pos hcn]
      exact Or.inr rfl
    · rw [if_neg hcn]
      exact Or.inl ⟨hc', hcn⟩
  · rw [if_neg hv] at hc
    rcases List.mem_append.mp hc with h | h
    · refine Or.inl ⟨h, fun hn => hv ?_⟩
      exact (hasCol_iff v n).mpr ⟨c, h, hn⟩
    · exact Or.inr (List.mem_singleton.mp h)

theorem mem_deriveFlag (v : Table) (src tgt : String) (f : Cell → Bool) (c : Col)
    (hc : c ∈ (deriveFlag v src tgt f).cols) :
    (c ∈ v.cols ∧ c.name ≠ tgt) ∨
      c = ⟨tgt, Dtype.boo, (v.getCells src).map (fun x => Cell.b (f x))⟩ :=
  mem_setCol v tgt Dtype.boo _ c hc

theorem cols_ne_nil_stripNames (v : Table) (hv : v.cols ≠ []) :
    (stripNames v).cols ≠ [] := by
  unfold stripNames
  simpa using hv

theorem cols_ne_nil_ensureRequired (v : Table) (hv : v.cols ≠ []) :
    (ensureRequired v).cols ≠ [] := by
  unfold ensureRequired
  simp only [ne_eq, List.append_eq_nil]
  intro h
  exact hv h.1

theorem cols_ne_nil_stripObjCells (v : Table) (hv : v.cols ≠ []) :
    (stripObjCells v).cols ≠ [] := by
  unfold stripObjCells
  simpa using hv

theorem cols_ne_nil_mapColNamed (v : Table) (n : String) (d : Dtype) (f : Cell → Cell)
    (hv : v.cols ≠ []) : (mapColNamed v n d f).cols ≠ [] := by
  unfold mapColNamed
  simpa using hv

theorem cols_ne_nil_setCol (v : Table) (n : String) (d : Dtype) (cs : List Cell)
    (hv : v.cols ≠ []) : (setCol v n d cs).cols ≠ [] := by
  unfold setCol
  by_cases h : v.hasCol n = true
  · rw [if_pos h]
    simpa using hv
  · rw [if_neg h]
    simp

theorem getCells_length (v : Table) (n : String) (hv : v.hasCol n = true) (n₀ : Nat)
    (hlen : ∀ c ∈ v.cols, c.cells.length = n₀) : (v.getCells n).length = n₀ := by
  obtain ⟨c, hc, hcn⟩ := (hasCol_iff v n).mp hv
  unfold Table.getCells
  rcases hfind : v.cols.find? (fun c => c.name = n) with _ | c' <;> rw [hfind]
  · rw [List.find?_eq_none] at hfind
    exact absurd (by simpa using hcn) (hfind c hc)
  · exact hlen c' (List.mem_of_find?_eq_some hfind)

theorem hasCol_stripObjCells (v : Table) (n : String) :
    (stripObjCells v).hasCol n = v.hasCol n := by
  unfold stripObjCells
  rw [hasCol_map_of_name_eq _ objF_name_eq]

theorem hasCol_mapColNamed (v : Table) (n m : String) (d : Dtype) (f : Cell → Cell) :
    (mapColNamed v n d f).hasCol m = v.hasCol m := by
  unfold mapColNamed
  rw [hasCol_map_of_name_eq _ (mapColNamed_name_eq n d f)]

theorem hasCol_deriveFlag_mono (v : Table) (src tgt m : String) (f : Cell → Bool)
    (hv : v.hasCol m = true) : (deriveFlag v src tgt f).hasCol m = true :=
  hasCol_setCol_mono v tgt m Dtype.boo _ hv

theorem hasCol_deriveFlag_self (v : Table) (src tgt : String) (f : Cell → Bool) :
    (deriveFlag v src tgt f).hasCol tgt = true :=
  hasCol_setCol_self v tgt Dtype.boo _

/-- One pass of the normalizer over a nonempty well-formed frame
establishes the `Normalized` invariant. -/
theorem normalized_cleanCore (t : Table) (hWF : t.WF) (hne : t.isEmptyT = false) :
    Normalized (cleanCore t) := by
  obtain ⟨hlen0, _hnodup⟩ := hWF
  obtain ⟨c₀, cs₀, htc⟩ : ∃ c₀ cs₀, t.cols = c₀ :: cs₀ := by
    cases h : t.cols with
    | nil =>
      unfold Table.isEmptyT at hne
      rw [h] at hne
      cases hne
    | cons a l => exact ⟨a, l, rfl⟩
  have ht_cols : t.cols ≠ [] := by rw [htc]; simp
  have hn0 : t.nRows ≠ 0 := by
    unfold Table.isEmptyT at hne
    rw [htc] at hne
    unfold Table.nRows
    rw [htc]
    simpa [List.isEmpty_iff, List.length_eq_zero] using hne
  set z1 := stripNames t with hz1
  set z2 := ensureRequired z1 with hz2
  set z3 := stripObjCells z2 with hz3
  set z4 := mapColNamed z3 "PitchLocation" Dtype.num toNumericCell with hz4
  set z5 := deriveFlag z4 "PitchLocation" "is_Zone" isZoneCell with hz5
  set z6 := deriveFlag z5 "PitchResult" "is_Swing" check_swing with hz6
  set z7 := deriveFlag z6 "PitchResult" "is_Contact" check_contact with hz7
  set z8 := deriveFlag z7 "PitchResult" "is_Miss" is_miss with hz8
  have hcc : cleanCore t = z8 := by
    unfold cleanCore
    rw [hne]
    rfl
  rw [hcc]
  -- stage 1
  have hlen1 : ∀ c ∈ z1.cols, c.cells.length = t.nRows := by
    intro c hc
    obtain ⟨c', hc', rfl⟩ := mem_stripNames t c hc
    exact hlen0 c' hc'
  have hnames1 : ∀ c ∈ z1.cols, strStrip c.name = c.name := by
    intro c hc
    obtain ⟨c', _, rfl⟩ := mem_stripNames t c hc
    exact strStrip_idem c'.name
  have hnr1 : z1.nRows = t.nRows := by
    rw [hz1]
    unfold stripNames Table.nRows
    rw [htc]
    simp
  have hcols1 : z1.cols ≠ [] := cols_ne_nil_stripNames t ht_cols
  -- stage 2
  have hlen2 : ∀ c ∈ z2.cols, c.cells.length = t.nRows := by
    intro c hc
    rcases mem_ensureRequired z1 c hc with h | ⟨m, _, rfl⟩
    · exact hlen1 c h
    · simp [hnr1]
  have hnames2 : ∀ c ∈ z2.cols, strStrip c.name = c.name := by
    intro c hc
    rcases mem_ensureRequired z1 c hc with h | ⟨m, hm, rfl⟩
    · exact hnames1 c h
    · exact requiredCols_stripped m hm
  have hreq2 : ∀ n ∈ requiredCols, z2.hasCol n = true :=
    fun n hn => hasCol_ensureRequired z1 n hn
  have hcols2 : z2.cols ≠ [] := cols_ne_nil_ensureRequired z1 hcols1
  -- stage 3
  have hlen3 : ∀ c ∈ z3.cols, c.cells.length = t.nRows := by
    intro c hc
    obtain ⟨c', hc', rfl⟩ := mem_stripObjCells z2 c hc
    by_cases hd : c'.dtype = Dtype.obj
    · simp [hd, hlen2 c' hc']
    · simp [hd, hlen2 c' hc']
  have hnames3 : ∀ c ∈ z3.cols, strStrip c.name = c.name := by
    intro c hc
    obtain ⟨c', hc', rfl⟩ := mem_stripObjCells z2 c hc
    by_cases hd : c'.dtype = Dtype.obj
    · simpa [hd] using hnames2 c' hc'
    · simpa [hd] using hnames2 c' hc'
  have hreq3 : ∀ n ∈ requiredCols, z3.hasCol n = true := by
    intro n hn
    rw [hz3, hasCol_stripObjCells]
    exact hreq2 n hn
  have hobj3 : ∀ c ∈ z3.cols, c.dtype = Dtype.obj → ∀ x ∈ c.cells, InSNRange x := by
    intro c hc hd x hx
    obtain ⟨c', hc', rfl⟩ := mem_stripObjCells z2 c hc
    by_cases hd' : c'.dtype = Dtype.obj
    · rw [if_pos hd'] at hx
      simp only at hx
      obtain ⟨y, _, rfl⟩ := List.mem_map.mp hx
      exact stripNorm_range y
    · rw [if_neg hd'] at hd
      exact absurd hd hd'
  have hcols3 : z3.cols ≠ [] := cols_ne_nil_stripObjCells z2 hcols2
  -- stage 4
  have hlen4 : ∀ c ∈ z4.cols, c.cells.length = t.nRows := by
    intro c hc
    obtain ⟨c', hc', rfl⟩ := mem_mapColNamed z3 _ _ _ c hc
    by_cases hn : c'.name = "PitchLocation"
    · simp [hn, hlen3 c' hc']
    · simp [hn, hlen3 c' hc']
  have hnames4 : ∀ c ∈ z4.cols, strStrip c.name = c.name := by
    intro c hc
    obtain ⟨c', hc', rfl⟩ := mem_mapColNamed z3 _ _ _ c hc
    by_cases hn : c'.name = "PitchLocation"
    · simpa [hn] using hnames3 c' hc'
    · simpa [hn] using hnames3 c' hc'
  have hreq4 : ∀ n ∈ requiredCols, z4.hasCol n = true := by
    intro n hn
    rw [hz4, hasCol_mapColNamed]
    exact hreq3 n hn
  have hobj4 : ∀ c ∈ z4.cols, c.dtype = Dtype.obj → ∀ x ∈ c.cells, InSNRange x := by
    intro c hc hd x hx
    obtain ⟨c', hc', rfl⟩ := mem_mapColNamed z3 _ _ _ c hc
    by_cases hn : c'.name = "PitchLocation"
    · rw [if_pos hn] at hd
      cases hd
    · rw [if_neg hn] at hd hx
      exact hobj3 c' hc' hd x hx
  have hpl4 : ∀ c ∈ z4.cols, c.name = "PitchLocation" →
      c.dtype = Dtype.num ∧ ∀ x ∈ c.cells, InNumRange x := by
    intro c hc hname
    obtain ⟨c', hc', rfl⟩ := mem_mapColNamed z3 _ _ _ c hc
    by_cases hn : c'.name = "PitchLocation"
    · refine ⟨by simp [hn], ?_⟩
      intro x hx
      rw [if_pos hn] at hx
      simp only at hx
      obtain ⟨y, _, rfl⟩ := List.mem_map.mp hx
      exact toNumericCell_range y
    · rw [if_neg hn] at hname
      exact absurd hname hn
  have hcols4 : z4.cols ≠ [] := cols_ne_nil_mapColNamed z3 _ _ _ hcols3
  have hplmem : "PitchLocation" ∈ requiredCols := by decide
  have hprmem : "PitchResult" ∈ requiredCols := by decide
  -- stage 5
  have hlen5 : ∀ c ∈ z5.cols, c.cells.length = t.nRows := by
    intro c hc
    rcases mem_deriveFlag z4 _ _ _ c hc with ⟨h, _⟩ | rfl
    · exact hlen4 c h
    · simpa using getCells_length z4 "PitchLocation" (hreq4 _ hplmem) t.nRows hlen4
  have hnames5 : ∀ c ∈ z5.cols, strStrip c.name = c.name := by
    intro c hc
    rcases mem_deriveFlag z4 _ _ _ c hc with ⟨h, _⟩ | rfl
    · exact hnames4 c h
    · exact flagNames_stripped.1
  have hreq5 : ∀ n ∈ requiredCols, z5.hasCol n = true :=
    fun n hn => hasCol_deriveFlag_mono z4 _ _ _ _ (hreq4 n hn)
  have hobj5 : ∀ c ∈ z5.cols, c.dtype = Dtype.obj → ∀ x ∈ c.cells, InSNRange x := by
    intro c hc hd x hx
    rcases mem_deriveFlag z4 _ _ _ c hc with ⟨h, _⟩ | rfl
    · exact hobj4 c h hd x hx
    · cases hd
  have hpl5 : ∀ c ∈ z5.cols, c.name = "PitchLocation" →
      c.dtype = Dtype.num ∧ ∀ x ∈ c.cells, InNumRange x := by
    intro c hc hname
    rcases mem_deriveFlag z4 _ _ _ c hc with ⟨h, _⟩ | rfl
    · exact hpl4 c h hname
    · simp at hname
  have hzone5 : ∀ c ∈ z5.cols, c.name = "is_Zone" →
      c = ⟨"is_Zone", Dtype.boo,
        (z4.getCells "PitchLocation").map (fun x => Cell.b (isZoneCell x))⟩ := by
    intro c hc hname
    rcases mem_deriveFlag z4 _ _ _ c hc with ⟨_, hn⟩ | rfl
    · exact absurd hname hn
    · rfl
  have hcols5 : z5.cols ≠ [] := cols_ne_nil_setCol z4 _ _ _ hcols4
  -- stage 6
  have hlen6 : ∀ c ∈ z6.cols, c.cells.length = t.nRows := by
    intro c hc
    rcases mem_deriveFlag z5 _ _ _ c hc with ⟨h, _⟩ | rfl
    · exact hlen5 c h
    · simpa using getCells_length z5 "PitchResult" (hreq5 _ hprmem) t.nRows hlen5
  have hnames6 : ∀ c ∈ z6.cols, strStrip c.name = c.name := by
    intro c hc
    rcases mem_deriveFlag z5 _ _ _ c hc with ⟨h, _⟩ | rfl
    · exact hnames5 c h
    · exact flagNames_stripped.2.1
  have hreq6 : ∀ n ∈ requiredCols, z6.hasCol n = true :=
    fun n hn => hasCol_deriveFlag_mono z5 _ _ _ _ (hreq5 n hn)
  have hobj6 : ∀ c ∈ z6.cols, c.dtype = Dtype.obj → ∀ x ∈ c.cells, InSNRange x := by
    intro c hc hd x hx
    rcases mem_deriveFlag z5 _ _ _ c hc with ⟨h, _⟩ | rfl
    · exact hobj5 c h hd x hx
    · cases hd
  have hpl6 : ∀ c ∈ z6.cols, c.name = "PitchLocation" →
      c.dtype = Dtype.num ∧ ∀ x ∈ c.cells, InNumRange x := by
    intro c hc hname
    rcases mem_deriveFlag z5 _ _ _ c hc with ⟨h, _⟩ | rfl
    · exact hpl5 c h hname
    · simp at hname
  have hzone6 : ∀ c ∈ z6.cols, c.name = "is_Zone" →
      c = ⟨"is_Zone", Dtype.boo,
        (z4.getCells "PitchLocation").map (fun x => Cell.b (isZoneCell x))⟩ := by
    intro c hc hname
    rcases mem_deriveFlag z5 _ _ _ c hc with ⟨h, _⟩ | rfl
    · exact hzone5 c h hname
    · simp at hname
  have hswing6 : ∀ c ∈ z6.cols, c.name = "is_Swing" →
      c = ⟨"is_Swing", Dtype.boo,
        (z5.getCells "PitchResult").map (fun x => Cell.b (check_swing x))⟩ := by
    intro c hc hname
    rcases mem_deriveFlag z5 _ _ _ c hc with ⟨_, hn⟩ | rfl
    · exact absurd hname hn
    · rfl
  have hcols6 : z6.cols ≠ [] := cols_ne_nil_setCol z5 _ _ _ hcols5
  -- stage 7
  have hlen7 : ∀ c ∈ z7.cols, c.cells.length = t.nRows := by
    intro c hc
    rcases mem_deriveFlag z6 _ _ _ c hc with ⟨h, _⟩ | rfl
    · exact hlen6 c h
    · simpa using getCells_length z6 "PitchResult" (hreq6 _ hprmem) t.nRows hlen6
  have hnames7 : ∀ c ∈ z7.cols, strStrip c.name = c.name := by
    intro c hc
    rcases mem_deriveFlag z6 _ _ _ c hc with ⟨h, _⟩ | rfl
    · exact hnames6 c h
    · exact flagNames_stripped.2.2.1
  have hreq7 : ∀ n ∈ requiredCols, z7.hasCol n = true :=
    fun n hn => hasCol_deriveFlag_mono z6 _ _ _ _ (hreq6 n hn)
  have hobj7 : ∀ c ∈ z7.cols, c.dtype = Dtype.obj → ∀ x ∈ c.cells, InSNRange x := by
    intro c hc hd x hx
    rcases mem_deriveFlag z6 _ _ _ c hc with ⟨h, _⟩ | rfl
    · exact hobj6 c h hd x hx
    · cases hd
  have hpl7 : ∀ c ∈ z7.cols, c.name = "PitchLocation" →
      c.dtype = Dtype.num ∧ ∀ x ∈ c.cells, InNumRange x := by
    intro c hc hname
    rcases mem_deriveFlag z6 _ _ _ c hc with ⟨h, _⟩ | rfl
    · exact hpl6 c h hname
    · simp at hname
  have hzone7 : ∀ c ∈ z7.cols, c.name = "is_Zone" →
      c = ⟨"is_Zone", Dtype.boo,
        (z4.getCells "PitchLocation").map (fun x => Cell.b (isZoneCell x))⟩ := by
    intro c hc hname
    rcases mem_deriveFlag z6 _ _ _ c hc with ⟨h, _⟩ | rfl
    · exact hzone6 c h hname
    · simp at hname
  have hswing7 : ∀ c ∈ z7.cols, c.name = "is_Swing" →
      c = ⟨"is_Swing", Dtype.boo,
        (z5.getCells "PitchResult").map (fun x => Cell.b (check_swing x))⟩ := by
    intro c hc hname
    rcases mem_deriveFlag z6 _ _ _ c hc with ⟨h, _⟩ | rfl
    · exact hswing6 c h hname
    · simp at hname
  have hcontact7 : ∀ c ∈ z7.cols, c.name = "is_Contact" →
      c = ⟨"is_Contact", Dtype.boo,
        (z6.getCells "PitchResult").map (fun x => Cell.b (check_contact x))⟩ := by
    intro c hc hname
    rcases mem_deriveFlag z6 _ _ _ c hc with ⟨_, hn⟩ | rfl
    · exact absurd hname hn
    · rfl
  have hcols7 : z7.cols ≠ [] := cols_ne_nil_setCol z6 _ _ _ hcols6
  -- stage 8
  have hlen8 : ∀ c ∈ z8.cols, c.cells.length = t.nRows := by
    intro c hc
    rcases mem_deriveFlag z7 _ _ _ c hc with ⟨h, _⟩ | rfl
    · exact hlen7 c h
    · simpa using getCells_length z7 "PitchResult" (hreq7 _ hprmem) t.nRows hlen7
  have hnames8 : ∀ c ∈ z8.cols, strStrip c.name = c.name := by
    intro c hc
    rcases mem_deriveFlag z7 _ _ _ c hc with ⟨h, _⟩ | rfl
    · exact hnames7 c h
    · exact flagNames_stripped.2.2.2
  have hreq8 : ∀ n ∈ requiredCols, z8.hasCol n = true :=
    fun n hn => hasCol_deriveFlag_mono z7 _ _ _ _ (hreq7 n hn)
  have hobj8 : ∀ c ∈ z8.cols, c.dtype = Dtype.obj → ∀ x ∈ c.cells, InSNRange x := by
    intro c hc hd x hx
    rcases mem_deriveFlag z7 _ _ _ c hc with ⟨h, _⟩ | rfl
    · exact hobj7 c h hd x hx
    · cases hd
  have hpl8 : ∀ c ∈ z8.cols, c.name = "PitchLocation" →
      c.dtype = Dtype.num ∧ ∀ x ∈ c.cells, InNumRange x := by
    intro c hc hname
    rcases mem_deriveFlag z7 _ _ _ c hc with ⟨h, _⟩ | rfl
    · exact hpl7 c h hname
    · simp at hname
  have hzone8 : ∀ c ∈ z8.cols, c.name = "is_Zone" →
      c = ⟨"is_Zone", Dtype.boo,
        (z4.getCells "PitchLocation").map (fun x => Cell.b (isZoneCell x))⟩ := by
    intro c hc hname
    rcases mem_deriveFlag z7 _ _ _ c hc with ⟨h, _⟩ | rfl
    · exact hzone7 c h hname
    · simp at hname
  have hswing8 : ∀ c ∈ z8.cols, c.name = "is_Swing" →
      c = ⟨"is_Swing", Dtype.boo,
        (z5.getCells "PitchResult").map (fun x => Cell.b (check_swing x))⟩ := by
    intro c hc hname
    rcases mem_deriveFlag z7 _ _ _ c hc with ⟨h, _⟩ | rfl
    · exact hswing7 c h hname
    · simp at hname
  have hcontact8 : ∀ c ∈ z8.cols, c.name = "is_Contact" →
      c = ⟨"is_Contact", Dtype.boo,
        (z6.getCells "PitchResult").map (fun x => Cell.b (check_contact x))⟩ := by
    intro c hc hname
    rcases mem_deriveFlag z7 _ _ _ c hc with ⟨h, _⟩ | rfl
    · exact hcontact7 c h hname
    · simp at hname
  have hmiss8 : ∀ c ∈ z8.cols, c.name = "is_Miss" →
      c = ⟨"is_Miss", Dtype.boo,
        (z7.getCells "PitchResult").map (fun x => Cell.b (is_miss x))⟩ := by
    intro c hc hname
    rcases mem_deriveFlag z7 _ _ _ c hc with ⟨_, hn⟩ | rfl
    · exact absurd hname hn
    · rfl
  have hcols8 : z8.cols ≠ [] := cols_ne_nil_setCol z7 _ _ _ hcols7
  -- getCells stability
  have p45 : z5.getCells "PitchLocation" = z4.getCells "PitchLocation" :=
    getCells_deriveFlag_other z4 _ _ _ _ (by decide)
  have p56 : z6.getCells "PitchLocation" = z5.getCells "PitchLocation" :=
    getCells_deriveFlag_other z5 _ _ _ _ (by decide)
  have p67 : z7.getCells "PitchLocation" = z6.getCells "PitchLocation" :=
    getCells_deriveFlag_other z6 _ _ _ _ (by decide)
  have p78 : z8.getCells "PitchLocation" = z7.getCells "PitchLocation" :=
    getCells_deriveFlag_other z7 _ _ _ _ (by decide)
  have s56 : z6.getCells "PitchResult" = z5.getCells "PitchResult" :=
    getCells_deriveFlag_other z5 _ _ _ _ (by decide)
  have s67 : z7.getCells "PitchResult" = z6.getCells "PitchResult" :=
    getCells_deriveFlag_other z6 _ _ _ _ (by decide)
  have s78 : z8.getCells "PitchResult" = z7.getCells "PitchResult" :=
    getCells_deriveFlag_other z7 _ _ _ _ (by decide)
  have hPL : z8.getCells "PitchLocation" = z4.getCells "PitchLocation" := by
    rw [p78, p67, p56, p45]
  have hPR5 : z8.getCells "PitchResult" = z5.getCells "PitchResult" := by
    rw [s78, s67, s56]
  have hPR6 : z8.getCells "PitchResult" = z6.getCells "PitchResult" := by
    rw [s78, s67]
  have hPR7 : z8.getCells "PitchResult" = z7.getCells "PitchResult" := s78
  -- assemble
  refine ⟨?_, hnames8, hreq8, hobj8, hpl8, ?_, ?_, ?_, ?_, ?_, ?_, ?_, ?_⟩
  · -- nonempty
    cases hz8c : z8.cols with
    | nil => exact absurd hz8c hcols8
    | cons c cs =>
      unfold Table.isEmptyT
      rw [hz8c]
      have hlc : c.cells.length = t.nRows := hlen8 c (by rw [hz8c]; simp)
      show c.cells.isEmpty = false
      cases hce : c.cells with
      | nil =>
        rw [hce] at hlc
        simp only [List.length_nil] at hlc
        exact absurd hlc.symm hn0
      | cons a l => rfl
  · intro c hc hname
    obtain h := hzone8 c hc hname
    rw [h]
    exact ⟨rfl, by rw [hPL]⟩
  · intro c hc hname
    obtain h := hswing8 c hc hname
    rw [h]
    exact ⟨rfl, by rw [hPR5]⟩
  · intro c hc hname
    obtain h := hcontact8 c hc hname
    rw [h]
    exact ⟨rfl, by rw [hPR6]⟩
  · intro c hc hname
    obtain h := hmiss8 c hc hname
    rw [h]
    exact ⟨rfl, by rw [hPR7]⟩
  · exact hasCol_deriveFlag_mono z7 _ _ _ _ (hasCol_deriveFlag_mono z6 _ _ _ _
      (hasCol_deriveFlag_mono z5 _ _ _ _ (hasCol_deriveFlag_self z4 _ _ _)))
  · exact hasCol_deriveFlag_mono z7 _ _ _ _ (hasCol_deriveFlag_mono z6 _ _ _ _
      (hasCol_deriveFlag_self z5 _ _ _))
  · exact hasCol_deriveFlag_mono z7 _ _ _ _ (hasCol_deriveFlag_self z6 _ _ _)
  · exact hasCol_deriveFlag_self z7 _ _ _

theorem nullToNoneStr_idem (x : Cell) :
    nullToNoneStr (nullToNoneStr x) = nullToNoneStr x := by
  cases x <;> rfl

theorem mapObjCells_idem (u : Table) :
    mapObjCells (mapObjCells u) = mapObjCells u := by
  unfold mapObjCells
  refine congrArg Table.mk ?_
  rw [List.map_map]
  refine List.map_congr_left (fun c _ => ?_)
  simp only [Function.comp]
  by_cases hd : c.dtype = Dtype.obj
  · simp only [hd, if_true, List.map_map]
    refine congrArg _ (List.map_congr_left (fun x _ => nullToNoneStr_idem x))
  · simp [hd]

theorem InSNRange_nullToNoneStr (x : Cell) (hx : InSNRange x) :
    InSNRange (nullToNoneStr x) := by
  rcases hx with rfl | ⟨v, rfl, hfix, hnan⟩
  · exact Or.inr ⟨"None", rfl, by decide, by decide⟩
  · exact Or.inr ⟨v, rfl, hfix, hnan⟩

theorem normalized_mapObj (u : Table) (hu : Normalized u) :
    Normalized (mapObjCells u) := by
  have hmem : ∀ c ∈ (mapObjCells u).cols, ∃ c' ∈ u.cols,
      c = if c'.dtype = Dtype.obj
        then ⟨c'.name, Dtype.obj, c'.cells.map nullToNoneStr⟩ else c' := by
    intro c hc
    obtain ⟨c', hc', rfl⟩ := List.mem_map.mp hc
    exact ⟨c', hc', rfl⟩
  refine ⟨?_, ?_, ?_, ?_, ?_, ?_, ?_, ?_, ?_, ?_, ?_, ?_, ?_⟩
  · -- nonempty
    have := hu.nonempty
    unfold Table.isEmptyT at this ⊢
    unfold mapObjCells
    cases huc : u.cols with
    | nil => rw [huc] at this; cases this
    | cons c cs =>
      rw [huc] at this
      simp only [List.map_cons]
      by_cases hd : c.dtype = Dtype.obj
      · simp only [hd, if_true]
        simpa using this
      · simp only [hd, if_false]
        exact this
  · intro c hc
    obtain ⟨c', hc', rfl⟩ := hmem c hc
    by_cases hd : c'.dtype = Dtype.obj
    · simpa [hd] using hu.namesFixed c' hc'
    · simpa [hd] using hu.namesFixed c' hc'
  · intro n hn
    rw [hasCol_mapObj]
    exact hu.required n hn
  · intro c hc hd x hx
    obtain ⟨c', hc', rfl⟩ := hmem c hc
    by_cases hd' : c'.dtype = Dtype.obj
    · rw [if_pos hd'] at hx
      simp only at hx
      obtain ⟨y, hy, rfl⟩ := List.mem_map.mp hx
      exact InSNRange_nullToNoneStr y (hu.objRange c' hc' hd' y hy)
    · rw [if_neg hd'] at hd
      exact absurd hd hd'
  · intro c hc hname
    obtain ⟨c', hc', rfl⟩ := hmem c hc
    by_cases hd' : c'.dtype = Dtype.obj
    · rw [if_pos hd'] at hname ⊢
      simp only at hname
      have := (hu.plNum c' hc' hname).1
      rw [hd'] at this
      cases this
    · rw [if_neg hd'] at hname ⊢
      exact hu.plNum c' hc' hname
  · intro c hc hname
    obtain ⟨c', hc', rfl⟩ := hmem c hc
    by_cases hd' : c'.dtype = Dtype.obj
    · rw [if_pos hd'] at hname
      simp only at hname
      have := (hu.flagZone c' hc' hname).1
      rw [hd'] at this
      cases this
    · rw [if_neg hd'] at hname ⊢
      obtain ⟨hb, hcells⟩ := hu.flagZone c' hc' hname
      exact ⟨hb, by rw [hcells, getCells_mapObj_pl u hu]⟩
  · intro c hc hname
    obtain ⟨c', hc', rfl⟩ := hmem c hc
    by_cases hd' : c'.dtype = Dtype.obj
    · rw [if_pos hd'] at hname
      simp only at hname
      have := (hu.flagSwing c' hc' hname).1
      rw [hd'] at this
      cases this
    · rw [if_neg hd'] at hname ⊢
      obtain ⟨hb, hcells⟩ := hu.flagSwing c' hc' hname
      exact ⟨hb, by
        rw [hcells, getCells_mapObj_pr_map u check_swing check_swing_nullToNoneStr]⟩
  · intro c hc hname
    obtain ⟨c', hc', rfl⟩ := hmem c hc
    by_cases hd' : c'.dtype = Dtype.obj
    · rw [if_pos hd'] at hname
      simp only at hname
      have := (hu.flagContact c' hc' hname).1
      rw [hd'] at this
      cases this
    · rw [if_neg hd'] at hname ⊢
      obtain ⟨hb, hcells⟩ := hu.flagContact c' hc' hname
      exact ⟨hb, by
        rw [hcells, getCells_mapObj_pr_map u check_contact check_contact_nullToNoneStr]⟩
  · intro c hc hname
    obtain ⟨c', hc', rfl⟩ := hmem c hc
    by_cases hd' : c'.dtype = Dtype.obj
    · rw [if_pos hd'] at hname
      simp only at hname
      have := (hu.flagMiss c' hc' hname).1
      rw [hd'] at this
      cases this
    · rw [if_neg hd'] at hname ⊢
      obtain ⟨hb, hcells⟩ := hu.flagMiss c' hc' hname
      exact ⟨hb, by
        rw [hcells, getCells_mapObj_pr_map u is_miss is_miss_nullToNoneStr]⟩
  · rw [hasCol_mapObj]; exact hu.hasZone
  · rw [hasCol_mapObj]; exact hu.hasSwing
  · rw [hasCol_mapObj]; exact hu.hasContact
  · rw [hasCol_mapObj]; exact hu.hasMiss

theorem mapObjCells_of_empty (t : Table) (hWF : t.WF) (hemp : t.isEmptyT = true) :
    mapObjCells t = t := by
  have hcells : ∀ c ∈ t.cols, c.cells = [] := by
    intro c hc
    have hlen := hWF.1 c hc
    unfold Table.isEmptyT at hemp
    unfold Table.nRows at hlen
    cases htc : t.cols with
    | nil => rw [htc] at hc; cases hc
    | cons c₀ cs₀ =>
      rw [htc] at hemp hlen
      have hemp' : c₀.cells.isEmpty = true := hemp
      have hlen' : c.cells.length = c₀.cells.length := hlen
      have h0 : c₀.cells.length = 0 := by
        simpa [List.isEmpty_iff, List.length_eq_zero] using hemp'
      rw [h0] at hlen'
      exact List.length_eq_zero.mp hlen'
  unfold mapObjCells
  refine (congrArg Table.mk (?_ : _ = t.cols.map id)).trans (by rw [List.map_id])
  refine List.map_congr_left (fun c hc => ?_)
  by_cases hd : c.dtype = Dtype.obj
  · rw [if_pos hd]
    have hcl : c.cells = [] := hcells c hc
    cases c with
    | mk nm dt cl =>
      simp only at hd hcl
      simp [hd, hcl]
  · simp [hd]

theorem cleanCore_of_empty (t : Table) (hemp : t.isEmptyT = true) :
    cleanCore t = t := by
  unfold cleanCore
  rw [hemp]
  rfl

theorem nRows_stripNames (v : Table) : (stripNames v).nRows = v.nRows := by
  unfold stripNames Table.nRows
  cases v.cols <;> rfl

theorem getCells_mapObj_nonobj (u : Table) (n : String)
    (hn : ∀ c ∈ u.cols, c.name = n → ¬ c.dtype = Dtype.obj) :
    (mapObjCells u).getCells n = u.getCells n := by
  unfold mapObjCells
  rw [getCells_map_of_name_eq _ nnF_name_eq]
  unfold Table.getCells
  rcases hfind : u.cols.find? (fun c => c.name = n) with _ | c <;> rw [hfind]
  have hname : c.name = n := by simpa using List.find?_some hfind
  simp [hn c (List.mem_of_find?_eq_some hfind) hname]

theorem find?_name_mk (R : List Cell) (l : List String) (n : String) (hn : n ∈ l) :
    (l.map (fun m => (⟨m, Dtype.obj, R⟩ : Col))).find? (fun c => c.name = n) =
      some ⟨n, Dtype.obj, R⟩ := by
  induction l with
  | nil => cases hn
  | cons m ms ih =>
    by_cases hmn : m = n
    · simp [hmn]
    · rw [List.map_cons, List.find?_cons_of_neg _ (by simp [hmn])]
      exact ih (by rcases List.mem_cons.mp hn with h | h; exact absurd h.symm hmn; exact h)

theorem getCells_ensureRequired_present (v : Table) (n : String) (hv : v.hasCol n = true) :
    (ensureRequired v).getCells n = v.getCells n := by
  unfold ensureRequired Table.getCells
  rw [find?_append_cols]
  rcases hfind : v.cols.find? (fun c => c.name = n) with _ | c <;> rw [hfind]
  obtain ⟨c, hc, hcn⟩ := (hasCol_iff v n).mp hv
  rw [List.find?_eq_none] at hfind
  exact absurd (by simpa using hcn) (hfind c hc)

theorem getCells_ensureRequired_missing (v : Table) (n : String) (hn : n ∈ requiredCols)
    (hv : v.hasCol n = false) :
    (ensureRequired v).getCells n = List.replicate v.nRows Cell.null := by
  unfold ensureRequired Table.getCells
  rw [find?_append_cols]
  rcases hfind : v.cols.find? (fun c => c.name = n) with _ | c <;> rw [hfind]
  · rw [find?_name_mk _ _ n (List.mem_filter.mpr ⟨hn, by simp [hv]⟩)]
  · have hname : c.name = n := by simpa using List.find?_some hfind
    have := (hasCol_iff v n).mpr ⟨c, List.mem_of_find?_eq_some hfind, hname⟩
    rw [hv] at this
    cases this

theorem getCells_ensureRequired_notreq (v : Table) (n : String) (hn : n ∉ requiredCols) :
    (ensureRequired v).getCells n = v.getCells n := by
  unfold ensureRequired Table.getCells
  rw [find?_append_cols]
  rcases hfind : v.cols.find? (fun c => c.name = n) with _ | c <;> rw [hfind]
  rw [List.find?_eq_none.mpr]
  intro c hc
  obtain ⟨m, hm, rfl⟩ := List.mem_map.mp hc
  have hmr : m ∈ requiredCols := (List.mem_filter.mp hm).1
  simp only [decide_eq_true_eq]
  intro hmn
  rw [hmn] at hmr
  exact hn hmr

theorem getCells_stripObj_of_obj (v : Table) (n : String)
    (h : ∀ c ∈ v.cols, c.name = n → c.dtype = Dtype.obj) :
    (stripObjCells v).getCells n = (v.getCells n).map stripNorm := by
  unfold stripObjCells
  rw [getCells_map_of_name_eq _ objF_name_eq]
  unfold Table.getCells
  rcases hfind : v.cols.find? (fun c => c.name = n) with _ | c <;> rw [hfind]
  · rfl
  · have hname : c.name = n := by simpa using List.find?_some hfind
    simp [h c (List.mem_of_find?_eq_some hfind) hname]

theorem getCells_mapColNamed_self (v : Table) (n : String) (d : Dtype) (f : Cell → Cell) :
    (mapColNamed v n d f).getCells n = (v.getCells n).map f := by
  unfold mapColNamed
  rw [getCells_map_of_name_eq _ (mapColNamed_name_eq n d f)]
  unfold Table.getCells
  rcases hfind : v.cols.find? (fun c => c.name = n) with _ | c <;> rw [hfind]
  · rfl
  · have hname : c.name = n := by simpa using List.find?_some hfind
    simp [hname]

theorem getCells_mapColNamed_other (v : Table) (n m : String) (d : Dtype) (f : Cell → Cell)
    (hm : m ≠ n) : (mapColNamed v n d f).getCells m = v.getCells m := by
  unfold mapColNamed
  rw [getCells_map_of_name_eq _ (mapColNamed_name_eq n d f)]
  unfold Table.getCells
  rcases hfind : v.cols.find? (fun c => c.name = m) with _ | c <;> rw [hfind]
  have hname : c.name = m := by simpa using List.find?_some hfind
  simp [hname, hm]

theorem cleanCall_run_eq (t : Table) :
    cleanCall.run t = (cleanCore t, cleanCore t) := by
  have hexp : cleanCall.run t =
      (if t.isEmptyT then (pure t : StateM Table Table) else do
        modify stripNames
        modify ensureRequired
        modify stripObjCells
        modify (fun u => mapColNamed u "PitchLocation" Dtype.num toNumericCell)
        modify (fun u => deriveFlag u "PitchLocation" "is_Zone" isZoneCell)
        modify (fun u => deriveFlag u "PitchResult" "is_Swing" check_swing)
        modify (fun u => deriveFlag u "PitchResult" "is_Contact" check_contact)
        modify (fun u => deriveFlag u "PitchResult" "is_Miss" is_miss)
        get).run t := rfl
  rw [hexp]
  cases h : t.isEmptyT with
  | true =>
    rw [if_pos rfl]
    have hc : cleanCore t = t := cleanCore_of_empty t h
    rw [hc]
    rfl
  | false =>
    rw [if_neg (by simp)]
    have hc : cleanCore t = deriveFlag (deriveFlag (deriveFlag (deriveFlag
        (mapColNamed (stripObjCells (ensureRequired (stripNames t)))
          "PitchLocation" Dtype.num toNumericCell)
        "PitchLocation" "is_Zone" isZoneCell)
        "PitchResult" "is_Swing" check_swing)
        "PitchResult" "is_Contact" check_contact)
        "PitchResult" "is_Miss" is_miss := by
      unfold cleanCore
      rw [h]
      rfl
    rw [hc]
    rfl

/-! ## Claim theorems -/

/-- C1: for every aggregator run on a (possibly empty) batter-filtered
table, the at-bat count is plate appearances minus walks minus
hit-by-pitches minus sacrifices, where PA counts rows with
`walk_strikeout_marker` present, `hit_result` present, or `pitch_result`
containing the hit-by-pitch keyword, walks are rows whose marker equals
the walk token, HBP are rows whose `pitch_result` contains the
hit-by-pitch keyword, and sacrifices are rows whose `hit_result` is the
sacrifice bunt or sacrifice fly token. -/
theorem aggregator_ab_identity (rows : List AggRow) :
    abCount rows =
      (rows.countP (fun r => cellNotna r.korBB || cellNotna r.hitResult ||
          strContains (cellToStr r.pitchResult) "死球") : Int)
        - rows.countP (fun r => r.korBB = Cell.s "四球")
        - rows.countP (fun r => strContains (cellToStr r.pitchResult) "死球")
        - rows.countP (fun r => r.hitResult = Cell.s "犠打" || r.hitResult = Cell.s "犠飛") ∧
    abCount rows = (paCount rows : Int) - bbCount rows - hbpCount rows - sacCount rows ∧
    (computeStats rows).pa = paCount rows :=
  ⟨rfl, rfl, rfl⟩

/-- C5: every rate metric of the aggregator is the formatted percentage
`n / d * 100` of its stated numerator and denominator, the percentage
function returns 0 (formatted "0.0%") for any numerator whenever its
denominator is 0 — never a NaN, never an error (the model is total) —
and on the empty table every count is 0 and the batting average is
reported as "-". -/
theorem rate_metrics_convention (rows : List AggRow) (n : ℚ) :
    (computeStats rows).walkRate = fmtPct (pct (bbCount rows) (paCount rows)) ∧
    (computeStats rows).soRate = fmtPct (pct (soCount rows) (paCount rows)) ∧
    (computeStats rows).oSwing =
      fmtPct (pct (swingsCount (outRows rows)) (outRows rows).length) ∧
    (computeStats rows).zSwing =
      fmtPct (pct (swingsCount (zoneRows rows)) (zoneRows rows).length) ∧
    (computeStats rows).swStr = fmtPct (pct (missesCount rows) rows.length) ∧
    (computeStats rows).oContact =
      fmtPct (pct (contactCount (outRows rows)) (swingsCount (outRows rows))) ∧
    (computeStats rows).zContact =
      fmtPct (pct (contactCount (zoneRows rows)) (swingsCount (zoneRows rows))) ∧
    (computeStats rows).contact =
      fmtPct (pct (contactCount rows) (swingsCount rows)) ∧
    (computeStats rows).kbb =
      fmtPct (pct ((soCount rows : ℚ) - (bbCount rows : ℚ)) (paCount rows)) ∧
    pct n 0 = 0 ∧
    fmtPct (pct n 0) = "0.0%" ∧
    computeStats [] =
      ⟨0, 0, "-", "0.0%", "0.0%", "0.0%", "0.0%", "0.0%", "0.0%", "0.0%", "0.0%", "0.0%"⟩ := by
  have hz : ∀ m : ℚ, pct m 0 = 0 := fun m => by simp [pct]
  have hfz : fmtPct 0 = "0.0%" := by
    unfold fmtPct fmt1
    rw [show round ((0 : ℚ) * 10) = 0 by rw [round_eq]; norm_num]
    decide
  refine ⟨rfl, rfl, rfl, rfl, rfl, rfl, rfl, rfl, rfl, hz n, by rw [hz n, hfz], ?_⟩
  show Stats.mk _ _ _ _ _ _ _ _ _ _ _ _ = _
  simp only [paCount, hitsCount, bbCount, hbpCount, soCount, sacCount, swingsCount,
    contactCount, missesCount, zoneRows, outRows, gamesCount, List.countP_nil,
    List.filter_nil, List.map_nil, List.dedup_nil, List.length_nil]
  norm_num [hz, hfz]

/-- C10: contact implies swing and miss implies swing, cell by cell (the
contact and miss keyword sets are subsets of the swing keyword set), so
every contact-rate denominator dominates its numerator, overall and in
each zone partition, and the swinging-strike numerator is dominated by
the swing count. -/
theorem contact_miss_subset_swing (c : Cell) (rows : List AggRow) :
    (check_contact c = true → check_swing c = true) ∧
    (is_miss c = true → check_swing c = true) ∧
    contactCount rows ≤ swingsCount rows ∧
    contactCount (zoneRows rows) ≤ swingsCount (zoneRows rows) ∧
    contactCount (outRows rows) ≤ swingsCount (outRows rows) ∧
    missesCount rows ≤ swingsCount rows := by
  have hcontact : ∀ x : Cell, check_contact x = true → check_swing x = true := by
    intro x hx
    cases x <;> simp_all [check_contact, check_swing]
    rcases hx with hx | hx <;> simp [hx]
  have hmiss : ∀ x : Cell, is_miss x = true → check_swing x = true := by
    intro x hx
    cases x with
    | s v => simp_all [is_miss, cellToStr, check_swing]
    | na => exact absurd hx (by decide)
    | null => exact absurd hx (by decide)
    | b bv => cases bv <;> exact absurd hx (by decide)
    | num k => rw [is_miss_num] at hx; cases hx
  refine ⟨hcontact c, hmiss c, ?_, ?_, ?_, ?_⟩ <;>
    exact List.countP_mono_left fun r _ h => by
      first
        | exact hcontact r.pitchResult h
        | exact hmiss r.pitchResult h

/-- C10 witness at concrete inputs: a foul cell is a contact and a
swing, a swinging-miss cell is a miss and a swing. -/
theorem contact_miss_subset_swing_witness :
    check_swing (Cell.s "ファール") = true ∧ check_swing (Cell.s "空振") = true := by
  constructor
  · exact (contact_miss_subset_swing (Cell.s "ファール") []).1 (by decide)
  · exact (contact_miss_subset_swing (Cell.s "空振") []).2.1 (by decide)

/-- C2 counterexample: a pitch with location code 5 and an absent
`pitch_result` has its `in_zone` flag true, so an absent `pitch_result`
does not yield false for all four derived flags — `in_zone` is computed
from `pitch_location` alone. -/
theorem flags_absent_pitch_result_cx :
    (∀ v : String, Cell.null ≠ Cell.s v) ∧ cellNotna Cell.null = false ∧
    isZoneCell (Cell.num 5) = true ∧
    ¬ (isZoneCell (Cell.num 5) = false ∧ check_swing Cell.null = false ∧
        check_contact Cell.null = false ∧ is_miss Cell.null = false) :=
  ⟨fun _ h => Cell.noConfusion h, rfl, by decide, by decide⟩

/-- C2 amended: the three `pitch_result`-derived flags are computed by
case-sensitive substring containment on the normalized string — `swung`
iff it contains a swinging-miss, foul or ball-in-play keyword,
`made_contact` iff a foul or ball-in-play keyword, `missed` iff the
swinging-miss keyword — and a non-string (absent) `pitch_result` yields
false for these three; `in_zone` is computed from `pitch_location`
alone.  In particular the foul string gives swung and made_contact true
with missed false, and the swinging-miss string gives swung and missed
true with made_contact false. -/
theorem flags_substring_characterization (v : String) (c : Cell)
    (hc : ∀ w : String, c ≠ Cell.s w) :
    check_swing (Cell.s v) =
      (strContains v "空振" || strContains v "ファール" || strContains v "インプレー") ∧
    check_contact (Cell.s v) = (strContains v "ファール" || strContains v "インプレー") ∧
    is_miss (Cell.s v) = strContains v "空振" ∧
    check_swing c = false ∧ check_contact c = false ∧ is_miss c = false ∧
    (check_swing (Cell.s "ファール"), check_contact (Cell.s "ファール"),
      is_miss (Cell.s "ファール")) = (true, true, false) ∧
    (check_swing (Cell.s "空振"), check_contact (Cell.s "空振"),
      is_miss (Cell.s "空振")) = (true, false, true) := by
  refine ⟨rfl, rfl, rfl, ?_, ?_, ?_, by decide, by decide⟩
  · cases c with
    | s w => exact absurd rfl (hc w)
    | na => rfl
    | null => rfl
    | num k => rfl
    | b bv => rfl
  · cases c with
    | s w => exact absurd rfl (hc w)
    | na => rfl
    | null => rfl
    | num k => rfl
    | b bv => rfl
  · cases c with
    | s w => exact absurd rfl (hc w)
    | na => decide
    | null => decide
    | num k => exact is_miss_num k
    | b bv => cases bv <;> decide

/-- C2 amended witness at a concrete non-string cell. -/
theorem flags_substring_characterization_witness :
    check_swing (Cell.s "ファールチップ") =
      (strContains "ファールチップ" "空振" || strContains "ファールチップ" "ファール" ||
        strContains "ファールチップ" "インプレー") ∧
    check_contact (Cell.s "ファールチップ") =
      (strContains "ファールチップ" "ファール" || strContains "ファールチップ" "インプレー") ∧
    is_miss (Cell.s "ファールチップ") = strContains "ファールチップ" "空振" ∧
    check_swing Cell.na = false ∧ check_contact Cell.na = false ∧ is_miss Cell.na = false ∧
    (check_swing (Cell.s "ファール"), check_contact (Cell.s "ファール"),
      is_miss (Cell.s "ファール")) = (true, true, false) ∧
    (check_swing (Cell.s "空振"), check_contact (Cell.s "空振"),
      is_miss (Cell.s "空振")) = (true, false, true) :=
  flags_substring_characterization "ファールチップ" Cell.na (fun _ h => Cell.noConfusion h)

/-- C3 counterexample: the rank the code uses is the concatenation of
all digits after the direction letter, not the maximal leading run:
for "H1A2" the leading run is 1 (a valid rank) yet the code computes 12
and yields absent coordinates, and for "HA2" the leading run is empty
(the claim demands absence) yet the code computes rank 2 and returns a
base angle and distance. -/
theorem spray_rank_not_leading_run_cx :
    sprayRank (Cell.s "H1A2") = some 12 ∧ specLeadingRank (Cell.s "H1A2") = some 1 ∧
    sprayBase (Cell.s "H1A2") = none ∧
    sprayRank (Cell.s "HA2") = some 2 ∧ specLeadingRank (Cell.s "HA2") = none ∧
    sprayBase (Cell.s "HA2") = some (-22.15, 65) :=
  ⟨by decide, by decide, by decide, by decide, by decide, rfl⟩

/-- Ranks outside 1..7 have no base distance. -/
theorem rank_to_dist_eq_none (r : Nat) (hr : ¬ (1 ≤ r ∧ r ≤ 7)) :
    rank_to_dist r = none := by
  match r with
  | 0 => rfl
  | 1 | 2 | 3 | 4 | 5 | 6 | 7 => omega
  | n + 8 => rfl

/-- Ranks in 1..7 have a base distance. -/
theorem rank_to_dist_isSome (r : Nat) (h1 : 1 ≤ r) (h7 : r ≤ 7) :
    ∃ dist, rank_to_dist r = some dist := by
  interval_cases r <;> exact ⟨_, rfl⟩

/-- C3 amended: after whitespace removal and uppercasing, the distance
rank is the number formed by concatenating all decimal digit characters
occurring after the direction letter (non-digits are skipped, not
stopped at); if there is no digit at all — or the memo is not a string
of length at least 2, or nothing remains after normalization — the rank
is absent, and an absent rank, a rank outside {1,…,7} or an unknown
direction letter each make both coordinates absent, while a known
direction letter together with a rank in {1,…,7} yields the looked-up
base angle and distance. -/
theorem spray_rank_all_digits (m : String) :
    sprayRank (Cell.s m) =
      (if m.toList.length < 2 then none
       else match normalizeMemo m with
         | [] => none
         | _ :: rest =>
           let ds := rest.filter Char.isDigit
           if ds.isEmpty then none else some (digitsVal ds)) ∧
    (sprayRank (Cell.s m) = none → sprayBase (Cell.s m) = none) ∧
    (∀ r, sprayRank (Cell.s m) = some r → ¬ (1 ≤ r ∧ r ≤ 7) →
      sprayBase (Cell.s m) = none) ∧
    (∀ d, sprayDir (Cell.s m) = some d → dir_to_angle d = none →
      sprayBase (Cell.s m) = none) ∧
    (∀ r d aq, sprayRank (Cell.s m) = some r → 1 ≤ r → r ≤ 7 →
      sprayDir (Cell.s m) = some d → dir_to_angle d = some aq →
      ∃ dist, rank_to_dist r = some dist ∧ sprayBase (Cell.s m) = some (aq, dist)) := by
  refine ⟨rfl, ?_, ?_, ?_, ?_⟩
  · intro h
    unfold sprayBase
    rcases hd : sprayDir (Cell.s m) <;> simp [h, hd]
  · intro r hr hout
    unfold sprayBase
    rcases hd : sprayDir (Cell.s m) with _ | d
    · simp [hd]
    · rcases ha : dir_to_angle d <;> simp [hr, hd, ha, rank_to_dist_eq_none r hout]
  · intro d hd ha
    unfold sprayBase
    rcases hr : sprayRank (Cell.s m) <;> simp [hd, hr, ha]
  · intro r d aq hr h1 h7 hd ha
    obtain ⟨dist, hdist⟩ := rank_to_dist_isSome r h1 h7
    exact ⟨dist, hdist, by unfold sprayBase; simp [hr, hd, ha, hdist]⟩

/-- C3 amended witness at the concrete code "H3". -/
theorem spray_rank_all_digits_witness :
    ∃ dist, rank_to_dist 3 = some dist ∧ sprayBase (Cell.s "H3") = some (-22.15, dist) :=
  (spray_rank_all_digits "H3").2.2.2.2 3 'H' (-22.15) (by decide) (by decide) (by decide)
    (by decide) rfl

/-- C6 counterexample: re-running the normalizer on its own output
changes the table — a Batter cell that is absent after the first pass
is the literal string "None" after the second, because the string pass
stringifies `None` to "None" and only the marker "nan" is put back to
absent. -/
theorem clean_not_idempotent_cx :
    cleanCore (cleanCore (Table.mk [⟨"Batter", Dtype.obj, [Cell.s "A", Cell.na]⟩])) ≠
      cleanCore (Table.mk [⟨"Batter", Dtype.obj, [Cell.s "A", Cell.na]⟩]) ∧
    (cleanCore (Table.mk [⟨"Batter", Dtype.obj, [Cell.s "A", Cell.na]⟩])).getCells "Batter"
      = [Cell.s "A", Cell.null] ∧
    (cleanCore (cleanCore (Table.mk
        [⟨"Batter", Dtype.obj, [Cell.s "A", Cell.na]⟩]))).getCells "Batter"
      = [Cell.s "A", Cell.s "None"] :=
  ⟨by decide, by decide, by decide⟩

/-- C6 amended: a second pass of the normalizer and flag deriver over
its own output (jittered coordinate columns excluded) is not the
identity but exactly the map sending each absent object-column cell to
the literal string "None"; the derived boolean flag columns are
unchanged, and from the second application on the transform is stable
(a third pass changes nothing). -/
theorem clean_idempotent_modulo_none (t : Table) (hWF : t.WF) :
    cleanCore (cleanCore t) = mapObjCells (cleanCore t) ∧
    (cleanCore (cleanCore t)).getCells "is_Zone" = (cleanCore t).getCells "is_Zone" ∧
    (cleanCore (cleanCore t)).getCells "is_Swing" = (cleanCore t).getCells "is_Swing" ∧
    (cleanCore (cleanCore t)).getCells "is_Contact" = (cleanCore t).getCells "is_Contact" ∧
    (cleanCore (cleanCore t)).getCells "is_Miss" = (cleanCore t).getCells "is_Miss" ∧
    cleanCore (cleanCore (cleanCore t)) = cleanCore (cleanCore t) := by
  by_cases hemp : t.isEmptyT = true
  · have hc : cleanCore t = t := cleanCore_of_empty t hemp
    have hm : mapObjCells t = t := mapObjCells_of_empty t hWF hemp
    simp [hc, hm]
  · have hne : t.isEmptyT = false := by simpa using hemp
    have hnorm := normalized_cleanCore t hWF hne
    have hmain : cleanCore (cleanCore t) = mapObjCells (cleanCore t) :=
      cleanCore_of_normalized _ hnorm
    have hflag : ∀ n : String, (∀ c ∈ (cleanCore t).cols, c.name = n →
        c.dtype = Dtype.boo) →
        (cleanCore (cleanCore t)).getCells n = (cleanCore t).getCells n := by
      intro n hn
      rw [hmain]
      refine getCells_mapObj_nonobj _ n (fun c hc hcn => ?_)
      rw [hn c hc hcn]
      simp
    have hthird : cleanCore (cleanCore (cleanCore t)) = cleanCore (cleanCore t) := by
      rw [hmain, cleanCore_of_normalized _ (normalized_mapObj _ hnorm), mapObjCells_idem]
    exact ⟨hmain,
      hflag _ (fun c hc hcn => (hnorm.flagZone c hc hcn).1),
      hflag _ (fun c hc hcn => (hnorm.flagSwing c hc hcn).1),
      hflag _ (fun c hc hcn => (hnorm.flagContact c hc hcn).1),
      hflag _ (fun c hc hcn => (hnorm.flagMiss c hc hcn).1), hthird⟩

/-- C6 amended witness at a concrete one-column table. -/
theorem clean_idempotent_modulo_none_witness :
    cleanCore (cleanCore (Table.mk [⟨"Batter", Dtype.obj, [Cell.s "A"]⟩])) =
      mapObjCells (cleanCore (Table.mk [⟨"Batter", Dtype.obj, [Cell.s "A"]⟩])) ∧
    (cleanCore (cleanCore (Table.mk [⟨"Batter", Dtype.obj,
        [Cell.s "A"]⟩]))).getCells "is_Zone" =
      (cleanCore (Table.mk [⟨"Batter", Dtype.obj, [Cell.s "A"]⟩])).getCells "is_Zone" ∧
    (cleanCore (cleanCore (Table.mk [⟨"Batter", Dtype.obj,
        [Cell.s "A"]⟩]))).getCells "is_Swing" =
      (cleanCore (Table.mk [⟨"Batter", Dtype.obj, [Cell.s "A"]⟩])).getCells "is_Swing" ∧
    (cleanCore (cleanCore (Table.mk [⟨"Batter", Dtype.obj,
        [Cell.s "A"]⟩]))).getCells "is_Contact" =
      (cleanCore (Table.mk [⟨"Batter", Dtype.obj, [Cell.s "A"]⟩])).getCells "is_Contact" ∧
    (cleanCore (cleanCore (Table.mk [⟨"Batter", Dtype.obj,
        [Cell.s "A"]⟩]))).getCells "is_Miss" =
      (cleanCore (Table.mk [⟨"Batter", Dtype.obj, [Cell.s "A"]⟩])).getCells "is_Miss" ∧
    cleanCore (cleanCore (cleanCore (Table.mk [⟨"Batter", Dtype.obj, [Cell.s "A"]⟩]))) =
      cleanCore (cleanCore (Table.mk [⟨"Batter", Dtype.obj, [Cell.s "A"]⟩])) :=
  clean_idempotent_modulo_none (Table.mk [⟨"Batter", Dtype.obj, [Cell.s "A"]⟩])
    (by constructor <;> decide)

/-- C7 counterexample: on a non-empty table missing the `KorBB` column
the normalizer creates the column, but its cells end up as the literal
string "None" (present), not as absent values; and the empty table is
returned unchanged, with no required column added at all. -/
theorem required_backfill_cx :
    (cleanCore (Table.mk [⟨"Batter", Dtype.obj, [Cell.s "A"]⟩])).getCells "KorBB"
      = [Cell.s "None"] ∧
    Cell.s "None" ≠ Cell.null ∧ Cell.s "None" ≠ Cell.na ∧
    cleanCore (Table.mk [⟨"Batter", Dtype.obj, []⟩]) = Table.mk [⟨"Batter", Dtype.obj, []⟩] ∧
    (cleanCore (Table.mk [⟨"Batter", Dtype.obj, []⟩])).hasCol "KorBB" = false :=
  ⟨by decide, by decide, by decide, by decide, by decide⟩

/-- C7 amended: on a non-empty well-formed table every required column
exists in the output; a required column missing from the input is
created, but after the string-normalization pass its cells hold the
literal null-marker string "None" — except `PitchLocation`, whose
created cells are coerced to absent by the numeric pass; an empty table
is returned unchanged, without any column being added. -/
theorem required_backfill (t : Table) (hWF : t.WF) (hne : t.isEmptyT = false) :
    (∀ n ∈ requiredCols, (cleanCore t).hasCol n = true) ∧
    (∀ n ∈ requiredCols, n ≠ "PitchLocation" → (stripNames t).hasCol n = false →
      (cleanCore t).getCells n = List.replicate t.nRows (Cell.s "None")) ∧
    ((stripNames t).hasCol "PitchLocation" = false →
      (cleanCore t).getCells "PitchLocation" = List.replicate t.nRows Cell.na) ∧
    (∀ t' : Table, t'.isEmptyT = true → cleanCore t' = t') := by
  have hnorm := normalized_cleanCore t hWF hne
  have hcc : cleanCore t = deriveFlag (deriveFlag (deriveFlag (deriveFlag
      (mapColNamed (stripObjCells (ensureRequired (stripNames t)))
        "PitchLocation" Dtype.num toNumericCell)
      "PitchLocation" "is_Zone" isZoneCell)
      "PitchResult" "is_Swing" check_swing)
      "PitchResult" "is_Contact" check_contact)
      "PitchResult" "is_Miss" is_miss := by
    unfold cleanCore
    rw [hne]
    rfl
  have hflags : ∀ n ∈ requiredCols, n ≠ "is_Zone" ∧ n ≠ "is_Swing" ∧
      n ≠ "is_Contact" ∧ n ≠ "is_Miss" := by decide
  have hobjmiss : ∀ n, (stripNames t).hasCol n = false →
      ∀ c ∈ (ensureRequired (stripNames t)).cols, c.name = n → c.dtype = Dtype.obj := by
    intro n h1 c hc hcn
    rcases mem_ensureRequired _ c hc with h | ⟨m, _, rfl⟩
    · have := (hasCol_iff _ n).mpr ⟨c, h, hcn⟩
      rw [h1] at this
      cases this
    · rfl
  have hchain : ∀ n, n ∈ requiredCols → n ≠ "PitchLocation" →
      (stripNames t).hasCol n = false →
      (cleanCore t).getCells n = List.replicate t.nRows (Cell.s "None") := by
    intro n hn hnpl h1
    obtain ⟨hz, hs, hco, hm⟩ := hflags n hn
    rw [hcc, getCells_deriveFlag_other _ _ _ _ _ hm, getCells_deriveFlag_other _ _ _ _ _ hco,
      getCells_deriveFlag_other _ _ _ _ _ hs, getCells_deriveFlag_other _ _ _ _ _ hz,
      getCells_mapColNamed_other _ _ _ _ _ hnpl,
      getCells_stripObj_of_obj _ _ (hobjmiss n h1),
      getCells_ensureRequired_missing _ _ hn h1, nRows_stripNames, List.map_replicate]
    rfl
  refine ⟨fun n hn => hnorm.required n hn, hchain, ?_, fun t' h => cleanCore_of_empty t' h⟩
  intro h1
  have hplreq : "PitchLocation" ∈ requiredCols := by decide
  rw [hcc, getCells_deriveFlag_other _ _ _ _ _ (by decide),
    getCells_deriveFlag_other _ _ _ _ _ (by decide),
    getCells_deriveFlag_other _ _ _ _ _ (by decide),
    getCells_deriveFlag_other _ _ _ _ _ (by decide),
    getCells_mapColNamed_self,
    getCells_stripObj_of_obj _ _ (hobjmiss _ h1),
    getCells_ensureRequired_missing _ _ hplreq h1, nRows_stripNames, List.map_replicate,
    List.map_replicate]
  rfl

/-- C7 amended witness at a concrete table missing every required
column except `Batter`. -/
theorem required_backfill_witness :
    (∀ n ∈ requiredCols,
      (cleanCore (Table.mk [⟨"Batter", Dtype.obj, [Cell.s "A"]⟩])).hasCol n = true) ∧
    (∀ n ∈ requiredCols, n ≠ "PitchLocation" →
      (stripNames (Table.mk [⟨"Batter", Dtype.obj, [Cell.s "A"]⟩])).hasCol n = false →
      (cleanCore (Table.mk [⟨"Batter", Dtype.obj, [Cell.s "A"]⟩])).getCells n =
        List.replicate (Table.mk [⟨"Batter", Dtype.obj, [Cell.s "A"]⟩]).nRows
          (Cell.s "None")) ∧
    ((stripNames (Table.mk [⟨"Batter", Dtype.obj, [Cell.s "A"]⟩])).hasCol "PitchLocation"
        = false →
      (cleanCore (Table.mk [⟨"Batter", Dtype.obj, [Cell.s "A"]⟩])).getCells "PitchLocation" =
        List.replicate (Table.mk [⟨"Batter", Dtype.obj, [Cell.s "A"]⟩]).nRows Cell.na) ∧
    (∀ t' : Table, t'.isEmptyT = true → cleanCore t' = t') :=
  required_backfill (Table.mk [⟨"Batter", Dtype.obj, [Cell.s "A"]⟩])
    (by constructor <;> decide) (by decide)

/-- C8 counterexample: the caller's frame object is mutated by the
call — after `clean_and_process` returns, the caller's original table
differs from what was passed in (here its column name has been
stripped, required columns added and cells rewritten). -/
theorem clean_mutates_caller_cx :
    (cleanCall.run (Table.mk [⟨" Batter ", Dtype.obj, [Cell.s " x "]⟩])).2 ≠
      Table.mk [⟨" Batter ", Dtype.obj, [Cell.s " x "]⟩] := by decide

/-- C8 amended: `clean_and_process` performs its normalization in place
on the caller's frame and returns that same frame: after the call the
caller's table equals the returned table, both being the normalized
table — the changes appear in the caller's original, not in a separate
copy. -/
theorem clean_returns_mutated_caller (t : Table) :
    (cleanCall.run t).2 = cleanCore t ∧ (cleanCall.run t).1 = (cleanCall.run t).2 := by
  rw [cleanCall_run_eq]
  exact ⟨rfl, rfl⟩

/-- C9 counterexample: the normalizer applies no date parsing — an
unparsable date string in a `date` column passes through as the same
string, present rather than absent. -/
theorem date_not_parsed_cx :
    isParsableDate "2024-13-99x" = false ∧
    (cleanCore (Table.mk [⟨"date", Dtype.obj, [Cell.s "2024-13-99x"]⟩])).getCells "date"
      = [Cell.s "2024-13-99x"] ∧
    Cell.s "2024-13-99x" ≠ Cell.null ∧ Cell.s "2024-13-99x" ≠ Cell.na :=
  ⟨by decide, by decide, by decide, by decide⟩

/-- C9 amended: the normalizer performs no date-specific parsing: a
date column (any object column outside the required and derived-flag
names) is handled exactly like every other string column — cells are
stringified, trimmed and the "nan" marker collapsed to absent — so
unparsable date strings survive as strings; the transform is a total
function (it never raises). -/
theorem date_column_passthrough (t : Table) (n : String)
    (hreq : n ∉ requiredCols)
    (hz : n ≠ "is_Zone") (hs : n ≠ "is_Swing") (hc : n ≠ "is_Contact") (hm : n ≠ "is_Miss")
    (hobj : ∀ c ∈ (stripNames t).cols, c.name = n → c.dtype = Dtype.obj)
    (hne : t.isEmptyT = false) :
    (cleanCore t).getCells n = ((stripNames t).getCells n).map stripNorm := by
  have hnpl : n ≠ "PitchLocation" := fun h => hreq (h ▸ (by decide))
  have hcc : cleanCore t = deriveFlag (deriveFlag (deriveFlag (deriveFlag
      (mapColNamed (stripObjCells (ensureRequired (stripNames t)))
        "PitchLocation" Dtype.num toNumericCell)
      "PitchLocation" "is_Zone" isZoneCell)
      "PitchResult" "is_Swing" check_swing)
      "PitchResult" "is_Contact" check_contact)
      "PitchResult" "is_Miss" is_miss := by
    unfold cleanCore
    rw [hne]
    rfl
  have hobj2 : ∀ c ∈ (ensureRequired (stripNames t)).cols, c.name = n →
      c.dtype = Dtype.obj := by
    intro c hcm hcn
    rcases mem_ensureRequired _ c hcm with h | ⟨m, hmr, rfl⟩
    · exact hobj c h hcn
    · rfl
  rw [hcc, getCells_deriveFlag_other _ _ _ _ _ hm, getCells_deriveFlag_other _ _ _ _ _ hc,
    getCells_deriveFlag_other _ _ _ _ _ hs, getCells_deriveFlag_other _ _ _ _ _ hz,
    getCells_mapColNamed_other _ _ _ _ _ hnpl,
    getCells_stripObj_of_obj _ _ hobj2,
    getCells_ensureRequired_notreq _ _ hreq]

/-- C9 amended witness at a concrete table with a `date` column holding
a parsable date, an unparsable date and a blank marker. -/
theorem date_column_passthrough_witness :
    (cleanCore (Table.mk [⟨"date", Dtype.obj,
        [Cell.s " 2024-05-01 ", Cell.s "2024-13-99x", Cell.na]⟩])).getCells "date" =
      ((stripNames (Table.mk [⟨"date", Dtype.obj,
        [Cell.s " 2024-05-01 ", Cell.s "2024-13-99x", Cell.na]⟩])).getCells "date").map
          stripNorm :=
  date_column_passthrough
    (Table.mk [⟨"date", Dtype.obj, [Cell.s " 2024-05-01 ", Cell.s "2024-13-99x", Cell.na]⟩])
    "date" (by decide) (by decide) (by decide) (by decide) (by decide)
    (by decide) (by decide)



/-- Rounding to two decimals is monotone. -/
theorem round2_mono (a b : ℝ) (h : a ≤ b) : round2 a ≤ round2 b := by
  unfold round2
  have hf : (⌊a * 100 + 1/2⌋ : ℤ) ≤ ⌊b * 100 + 1/2⌋ := Int.floor_le_floor (by linarith)
  have hc : ((⌊a * 100 + 1/2⌋ : ℤ) : ℝ) ≤ ((⌊b * 100 + 1/2⌋ : ℤ) : ℝ) := by exact_mod_cast hf
  linarith

/-- Value of the two-decimal rounding on an interval of the hundredth grid. -/
theorem round2_eq (z : ℝ) (m : ℤ) (h1 : (m : ℝ) ≤ z * 100 + 1/2)
    (h2 : z * 100 + 1/2 < m + 1) : round2 z = m / 100 := by
  unfold round2
  rw [Int.floor_eq_iff.mpr ⟨h1, by exact_mod_cast h2⟩]

/-- Two-sided cubic Taylor bracket for the sine on a small positive interval. -/
theorem sin_poly_bracket (x tlo thi : ℝ) (h0 : 0 < tlo) (hl : tlo ≤ x) (hu : x ≤ thi)
    (h1 : thi ≤ 1) :
    tlo - thi^3/6 - thi^4*(5/96) ≤ Real.sin x ∧
      Real.sin x ≤ thi - tlo^3/6 + thi^4*(5/96) := by
  have hxpos : 0 < x := lt_of_lt_of_le h0 hl
  have habs : |Real.sin x - (x - x^3/6)| ≤ |x|^4*(5/96) :=
    Real.sin_bound (by rw [abs_of_pos hxpos]; exact le_trans hu h1)
  rw [abs_of_pos hxpos] at habs
  obtain ⟨hlo, hhi⟩ := abs_le.mp habs
  have hx3u : x^3 ≤ thi^3 := pow_le_pow_left₀ (le_of_lt hxpos) hu 3
  have hx3l : tlo^3 ≤ x^3 := pow_le_pow_left₀ (le_of_lt h0) hl 3
  have hx4u : x^4 ≤ thi^4 := pow_le_pow_left₀ (le_of_lt hxpos) hu 4
  constructor <;> linarith

/-- The triple-angle cubic is monotone on [0, 1/2], so it maps brackets to
brackets. -/
theorem cubic_mono_bracket (s a b : ℝ) (h0 : 0 ≤ a) (hl : a ≤ s) (hu : s ≤ b)
    (hb : b ≤ 1/2) :
    3*a - 4*a^3 ≤ 3*s - 4*s^3 ∧ 3*s - 4*s^3 ≤ 3*b - 4*b^3 := by
  have hs2 : s ≤ 1/2 := le_trans hu hb
  have ha2 : a ≤ 1/2 := le_trans hl hs2
  have hs0 : 0 ≤ s := le_trans h0 hl
  have hb0 : 0 ≤ b := le_trans hs0 hu
  have hfac1 : 0 ≤ 3 - 4*(s^2 + s*a + a^2) := by
    nlinarith [mul_nonneg hs0 (sub_nonneg.mpr hs2), mul_nonneg h0 (sub_nonneg.mpr ha2),
      mul_nonneg hs0 (sub_nonneg.mpr ha2)]
  have hfac2 : 0 ≤ 3 - 4*(b^2 + b*s + s^2) := by
    nlinarith [mul_nonneg hb0 (sub_nonneg.mpr hb), mul_nonneg hs0 (sub_nonneg.mpr hs2),
      mul_nonneg hb0 (sub_nonneg.mpr hs2)]
  constructor
  · nlinarith [mul_nonneg (sub_nonneg.mpr hl) hfac1]
  · nlinarith [mul_nonneg (sub_nonneg.mpr hu) hfac2]

/-- Certified bracket for sin(22.1 degrees), by two triple-angle steps from
the cubic Taylor bracket at one ninth of the angle. -/
theorem sinA1_bracket :
    (0.3762210 : ℝ) ≤ Real.sin (221*Real.pi/1800) ∧
      Real.sin (221*Real.pi/1800) ≤ 0.3762280 := by
  have hπl : (3.141592 : ℝ) < Real.pi := Real.pi_gt_d6
  have hπu : Real.pi < 3.141593 := Real.pi_lt_d6
  set θ : ℝ := 221*Real.pi/16200 with hθ
  have hθl : (221*3.141592/16200 : ℝ) ≤ θ := by rw [hθ]; nlinarith
  have hθu : θ ≤ (221*3.141593/16200 : ℝ) := by rw [hθ]; nlinarith
  have hbr := sin_poly_bracket θ (221*3.141592/16200) (221*3.141593/16200)
    (by norm_num) hθl hθu (by norm_num)
  have ha1 : (0.0428442248 : ℝ) ≤ Real.sin θ := le_trans (by norm_num) hbr.1
  have hb1 : Real.sin θ ≤ (0.04284459 : ℝ) := le_trans hbr.2 (by norm_num)
  have h3 := cubic_mono_bracket (Real.sin θ) 0.0428442248 0.04284459
    (by norm_num) ha1 hb1 (by norm_num)
  have hs3 : Real.sin (3*θ) = 3*Real.sin θ - 4*(Real.sin θ)^3 := Real.sin_three_mul θ
  have ha3 : (0.1282180902 : ℝ) ≤ Real.sin (3*θ) := by
    rw [hs3]; exact le_trans (by norm_num) h3.1
  have hb3 : Real.sin (3*θ) ≤ (0.1282191778 : ℝ) := by
    rw [hs3]; exact le_trans h3.2 (by norm_num)
  have h9 := cubic_mono_bracket (Real.sin (3*θ)) 0.1282180902 0.1282191778
    (by norm_num) ha3 hb3 (by norm_num)
  have hs9 : Real.sin (3*(3*θ)) = 3*Real.sin (3*θ) - 4*(Real.sin (3*θ))^3 :=
    Real.sin_three_mul (3*θ)
  have harg : 3*(3*θ) = 221*Real.pi/1800 := by rw [hθ]; ring
  rw [harg] at hs9
  constructor
  · rw [hs9]; exact le_trans (by norm_num) h9.1
  · rw [hs9]; exact le_trans h9.2 (by norm_num)

/-- Certified bracket for sin(22.2 degrees). -/
theorem sinA2_bracket :
    (0.3778370 : ℝ) ≤ Real.sin (222*Real.pi/1800) ∧
      Real.sin (222*Real.pi/1800) ≤ 0.3778450 := by
  have hπl : (3.141592 : ℝ) < Real.pi := Real.pi_gt_d6
  have hπu : Real.pi < 3.141593 := Real.pi_lt_d6
  set θ : ℝ := 222*Real.pi/16200 with hθ
  have hθl : (222*3.141592/16200 : ℝ) ≤ θ := by rw [hθ]; nlinarith
  have hθu : θ ≤ (222*3.141593/16200 : ℝ) := by rw [hθ]; nlinarith
  have hbr := sin_poly_bracket θ (222*3.141592/16200) (222*3.141593/16200)
    (by norm_num) hθl hθu (by norm_num)
  have ha1 : (0.0430379682 : ℝ) ≤ Real.sin θ := le_trans (by norm_num) hbr.1
  have hb1 : Real.sin θ ≤ (0.0430383398 : ℝ) := le_trans hbr.2 (by norm_num)
  have h3 := cubic_mono_bracket (Real.sin θ) 0.0430379682 0.0430383398
    (by norm_num) ha1 hb1 (by norm_num)
  have hs3 : Real.sin (3*θ) = 3*Real.sin θ - 4*(Real.sin θ)^3 := Real.sin_three_mul θ
  have ha3 : (0.1287950334 : ℝ) ≤ Real.sin (3*θ) := by
    rw [hs3]; exact le_trans (by norm_num) h3.1
  have hb3 : Real.sin (3*θ) ≤ (0.12879614 : ℝ) := by
    rw [hs3]; exact le_trans h3.2 (by norm_num)
  have h9 := cubic_mono_bracket (Real.sin (3*θ)) 0.1287950334 0.12879614
    (by norm_num) ha3 hb3 (by norm_num)
  have hs9 : Real.sin (3*(3*θ)) = 3*Real.sin (3*θ) - 4*(Real.sin (3*θ))^3 :=
    Real.sin_three_mul (3*θ)
  have harg : 3*(3*θ) = 222*Real.pi/1800 := by rw [hθ]; ring
  rw [harg] at hs9
  constructor
  · rw [hs9]; exact le_trans (by norm_num) h9.1
  · rw [hs9]; exact le_trans h9.2 (by norm_num)

/-- Two-decimal rounding moves a value by at most half a hundredth. -/
theorem round2_close (z : ℝ) : z - 1/200 ≤ round2 z ∧ round2 z ≤ z + 1/200 := by
  unfold round2
  have h1 := Int.floor_le (z*100 + 1/2)
  have h2 := Int.lt_floor_add_one (z*100 + 1/2)
  constructor <;> linarith

/-- On the code "H3" the transform uses base angle -22.15 degrees and base
distance 110 and produces the rounded elliptical projection of the jittered
polar point. -/
theorem parse_xy_h3_shape (ja jd : ℝ) :
    parse_xy_real (Cell.s "H3") ja jd = some
      (round2 (110 * jd * 1.2 * Real.sin ((-22.15 + ja) * Real.pi / 180)),
       round2 (110 * jd * 0.8 * Real.cos ((-22.15 + ja) * Real.pi / 180))) := by
  have hbase : sprayBase (Cell.s "H3") = some ((-22.15 : ℚ), (110 : ℚ)) := rfl
  unfold parse_xy_real
  rw [hbase]
  simp only [Option.map_some']
  have hc110 : ((110 : ℚ) : ℝ) = 110 := by norm_num
  have hc22 : (((-22.15 : ℚ)) : ℝ) = -22.15 := by norm_num
  rw [hc110, hc22]



/-- The sine of the jittered angle lies between the sines of the two
boundary angles, with certified numeric bounds. -/
theorem sin_jitter_bracket (ja : ℝ) (hj1 : -0.05 ≤ ja) (hj2 : ja ≤ 0.05) :
    Real.sin (-(222*Real.pi/1800)) ≤ Real.sin ((-22.15 + ja) * Real.pi / 180) ∧
      Real.sin ((-22.15 + ja) * Real.pi / 180) ≤ Real.sin (-(221*Real.pi/1800)) ∧
      -0.3778450 ≤ Real.sin ((-22.15 + ja) * Real.pi / 180) ∧
      Real.sin ((-22.15 + ja) * Real.pi / 180) ≤ -0.3762210 := by
  have hπ := Real.pi_pos
  set θ : ℝ := (-22.15 + ja) * Real.pi / 180 with hθ
  have hθlo : -(222*Real.pi/1800) ≤ θ := by
    rw [hθ]
    nlinarith [mul_nonneg (by linarith : (0:ℝ) ≤ ja + 0.05) (le_of_lt hπ)]
  have hθhi : θ ≤ -(221*Real.pi/1800) := by
    rw [hθ]
    nlinarith [mul_nonneg (by linarith : (0:ℝ) ≤ 0.05 - ja) (le_of_lt hπ)]
  have hmemlo : -(222*Real.pi/1800) ∈ Set.Icc (-(Real.pi/2)) (Real.pi/2) := by
    constructor <;> nlinarith
  have hmemhi : -(221*Real.pi/1800) ∈ Set.Icc (-(Real.pi/2)) (Real.pi/2) := by
    constructor <;> nlinarith
  have hmemθ : θ ∈ Set.Icc (-(Real.pi/2)) (Real.pi/2) :=
    ⟨le_trans hmemlo.1 hθlo, le_trans hθhi hmemhi.2⟩
  have hmono := Real.strictMonoOn_sin.monotoneOn
  have hsinlo : Real.sin (-(222*Real.pi/1800)) ≤ Real.sin θ := hmono hmemlo hmemθ hθlo
  have hsinhi : Real.sin θ ≤ Real.sin (-(221*Real.pi/1800)) := hmono hmemθ hmemhi hθhi
  have hsinlo2 := hsinlo
  have hsinhi2 := hsinhi
  rw [Real.sin_neg] at hsinlo2 hsinhi2
  exact ⟨hsinlo, hsinhi, by linarith [sinA2_bracket.2], by linarith [sinA1_bracket.1]⟩

set_option maxHeartbeats 1600000 in
/-- C4: on the spray code "H3", for every draw of the jitter source —
an angle offset in [-0.05, 0.05] degrees and a distance factor in
[0.9, 1.1] — the transform uses base angle -22.15 degrees and base
distance 110, and returns x = round(distance * 1.2 * sin(angle), 2) and
y = round(distance * 0.8 * cos(angle), 2); the x coordinate always lies
inside the stated jitter envelope
[110*1.2*sin(-22.2 deg)*1.1, 110*1.2*sin(-22.1 deg)*0.9], and two
invocations with different draws need not be equal. -/
theorem spray_h3_envelope (ja jd : ℝ)
    (hj1 : -0.05 ≤ ja) (hj2 : ja ≤ 0.05) (hd1 : 0.9 ≤ jd) (hd2 : jd ≤ 1.1) :
    ∃ x y, parse_xy_real (Cell.s "H3") ja jd = some (x, y) ∧
      x = round2 (110 * jd * 1.2 * Real.sin ((-22.15 + ja) * Real.pi / 180)) ∧
      y = round2 (110 * jd * 0.8 * Real.cos ((-22.15 + ja) * Real.pi / 180)) ∧
      110 * 1.2 * Real.sin (-22.2 * Real.pi / 180) * 1.1 ≤ x ∧
      x ≤ 110 * 1.2 * Real.sin (-22.1 * Real.pi / 180) * 0.9 ∧
      parse_xy_real (Cell.s "H3") 0 0.9 ≠ parse_xy_real (Cell.s "H3") 0 1.1 := by
  have hπ := Real.pi_pos
  have hA1 : (-22.1 : ℝ) * Real.pi / 180 = -(221*Real.pi/1800) := by ring
  have hA2 : (-22.2 : ℝ) * Real.pi / 180 = -(222*Real.pi/1800) := by ring
  have hs2 := sinA2_bracket
  have hs1 := sinA1_bracket
  obtain ⟨hexlo, hexhi, hsl, hsu⟩ := sin_jitter_bracket ja hj1 hj2
  set θ : ℝ := (-22.15 + ja) * Real.pi / 180 with hθ
  have hA2neg : Real.sin (-(222*Real.pi/1800)) = -Real.sin (222*Real.pi/1800) :=
    Real.sin_neg _
  have hA1neg : Real.sin (-(221*Real.pi/1800)) = -Real.sin (221*Real.pi/1800) :=
    Real.sin_neg _
  have hsinlo : -Real.sin (222*Real.pi/1800) ≤ Real.sin θ := by
    rw [hA2neg] at hexlo
    exact hexlo
  have hsinhi : Real.sin θ ≤ -Real.sin (221*Real.pi/1800) := by
    rw [hA1neg] at hexhi
    exact hexhi
  have hxlo : 110 * 1.2 * (-Real.sin (222*Real.pi/1800)) * 1.1 ≤
      110 * jd * 1.2 * Real.sin θ := by
    nlinarith [mul_nonneg (by linarith : (0:ℝ) ≤ 1.1 - jd)
      (by linarith : (0:ℝ) ≤ -Real.sin θ), hsinlo]
  have hxhi : 110 * jd * 1.2 * Real.sin θ ≤
      110 * 1.2 * (-Real.sin (221*Real.pi/1800)) * 0.9 := by
    nlinarith [mul_nonneg (by linarith : (0:ℝ) ≤ jd - 0.9)
      (by linarith : (0:ℝ) ≤ -Real.sin θ), hsinhi]
  have hrlo : round2 (110 * 1.2 * (-Real.sin (222*Real.pi/1800)) * 1.1) =
      ((-5486 : ℤ) : ℝ) / 100 := by
    refine round2_eq _ (-5486) ?_ ?_
    · push_cast
      nlinarith [hs2.1, hs2.2]
    · push_cast
      nlinarith [hs2.1, hs2.2]
  have hrhi : round2 (110 * 1.2 * (-Real.sin (221*Real.pi/1800)) * 0.9) =
      ((-4470 : ℤ) : ℝ) / 100 := by
    refine round2_eq _ (-4470) ?_ ?_
    · push_cast
      nlinarith [hs1.1, hs1.2]
    · push_cast
      nlinarith [hs1.1, hs1.2]
  have hneq : parse_xy_real (Cell.s "H3") 0 0.9 ≠ parse_xy_real (Cell.s "H3") 0 1.1 := by
    obtain ⟨h0exl, h0exh, h0l, h0u⟩ := sin_jitter_bracket 0 (by norm_num) (by norm_num)
    rw [parse_xy_h3_shape, parse_xy_h3_shape]
    intro heq
    have hpair := Option.some.inj heq
    have hx12 := congrArg Prod.fst hpair
    simp only at hx12
    have hc1 := round2_close (110 * (0.9:ℝ) * 1.2 *
      Real.sin ((-22.15 + 0) * Real.pi / 180))
    have hc2 := round2_close (110 * (1.1:ℝ) * 1.2 *
      Real.sin ((-22.15 + 0) * Real.pi / 180))
    have hgap : (0:ℝ) < 1 := by norm_num
    nlinarith [hc1.1, hc1.2, hc2.1, hc2.2, h0l, h0u, hx12]
  refine ⟨round2 (110 * jd * 1.2 * Real.sin θ), round2 (110 * jd * 0.8 * Real.cos θ),
    parse_xy_h3_shape ja jd, rfl, rfl, ?_, ?_, hneq⟩
  · rw [hA2, hA2neg]
    calc 110 * 1.2 * (-Real.sin (222*Real.pi/1800)) * 1.1 ≤
        round2 (110 * 1.2 * (-Real.sin (222*Real.pi/1800)) * 1.1) := by
          rw [hrlo]
          push_cast
          nlinarith [hs2.1]
      _ ≤ round2 (110 * jd * 1.2 * Real.sin θ) := round2_mono _ _ hxlo
  · rw [hA1, hA1neg]
    calc round2 (110 * jd * 1.2 * Real.sin θ) ≤
        round2 (110 * 1.2 * (-Real.sin (221*Real.pi/1800)) * 0.9) := round2_mono _ _ hxhi
      _ ≤ 110 * 1.2 * (-Real.sin (221*Real.pi/1800)) * 0.9 := by
          rw [hrhi]
          push_cast
          nlinarith [hs1.2]

/-- C4 witness at the centre draw (no angle offset, unit distance factor). -/
theorem spray_h3_envelope_witness :
    ∃ x y, parse_xy_real (Cell.s "H3") 0 1 = some (x, y) ∧
      x = round2 (110 * 1 * 1.2 * Real.sin ((-22.15 + 0) * Real.pi / 180)) ∧
      y = round2 (110 * 1 * 0.8 * Real.cos ((-22.15 + 0) * Real.pi / 180)) ∧
      110 * 1.2 * Real.sin (-22.2 * Real.pi / 180) * 1.1 ≤ x ∧
      x ≤ 110 * 1.2 * Real.sin (-22.1 * Real.pi / 180) * 0.9 ∧
      parse_xy_real (Cell.s "H3") 0 0.9 ≠ parse_xy_real (Cell.s "H3") 0 1.1 :=
  spray_h3_envelope 0 1 (by norm_num) (by norm_num) (by norm_num) (by norm_num)

end MatchMetrics
